import Mathlib

/-!
Verification of the modulo-three finite-state machine

A shallow embedding of the Go packages `fsm` (the generic deterministic
automaton engine, `fsm/fsm.go`) and `modthree` (the remainder-mod-3 client,
`modthree/modthree.go`), followed by theorems about them.

Modelling conventions

* A Go `map[K]V` is an association list `GoMap K V`; `m[k]` with the comma-ok
  form is `GoMap.get?`, the assignment `m[k] = v` is `GoMap.set`, `len(m)` is
  `GoMap.len`.  A `map[K]struct{}` (a set) is a `GoMap K Unit`.
* A method with receiver `f *FSM` is a function that takes the automaton and
  returns the Go result paired with the automaton after the call.
* Go `string` values are Lean strings (sequences of Unicode code points),
  `rune` is `Int` (no arithmetic is ever done on a rune), `int` positions are
  `Int`.
* A Go `error` is a value of `Err`; `nil` is `none`.
-/

/-! ## Go maps -/

/-- Go `map[K]V`: association list, the first binding of a key is the live one. -/
abbrev GoMap (K V : Type) := List (K × V)

namespace GoMap

variable {K V : Type} [DecidableEq K]

/-- Comma-ok lookup: `v, ok := m[k]`. -/
def get? : GoMap K V → K → Option V
  | [], _ => none
  | (k', v) :: m, k => if k' = k then some v else get? m k

/-- The `ok` of `_, ok := m[k]`. -/
def has (m : GoMap K V) (k : K) : Bool := (get? m k).isSome

/-- Assignment `m[k] = v`. -/
def set : GoMap K V → K → V → GoMap K V
  | [], k, v => [(k, v)]
  | (k', v') :: m, k, v => if k' = k then (k, v) :: m else (k', v') :: set m k v

/-- Go `len(m)`. -/
def len (m : GoMap K V) : Nat := m.length

end GoMap

/-! ## Package `fsm` -/

namespace fsm

/-- Go `type State string`. -/
abbrev State := String

/-- Go `type Symbol rune`. -/
abbrev Symbol := Int

/-- Errors of the two packages.  The first six are the sentinel errors of
`fsm.go`; `ErrInvalidSymbol`, `ErrNoTransition` and `ErrDupTransition` carry the
values that `fmt.Errorf` formats around the wrapped sentinel.  The next three are
the unwrapped `fmt.Errorf` errors of `AddTransition`.  The last two are the
errors built by `modthree.ModThree`. -/
inductive Err where
  | ErrStartNotInStates
  | ErrInvalidSymbol (r : Int) (pos : Int)
  | ErrNoTransition (current : State) (r : Int) (pos : Int)
  | ErrDupTransition (from' : State) (symbol : Int)
  | ErrNoStates
  | ErrEmptyAlphabet
  | fromStateNotDefined (from' : State)
  | toStateNotDefined (to' : State)
  | symbolNotInAlphabet (symbol : Int)
  | invalidBinaryInput (err : Err)
  | unknownFinalState (final : State)
  deriving DecidableEq, Repr

/-- The error kind the specification calls `UndefinedState`. -/
def Err.isUndefinedState : Err → Bool
  | .fromStateNotDefined _ => true
  | .toStateNotDefined _ => true
  | _ => false

/-- The error kind the specification calls `UndefinedSymbol`. -/
def Err.isUndefinedSymbol : Err → Bool
  | .symbolNotInAlphabet _ => true
  | _ => false

/-- Go `type FSM struct`. -/
structure FSM where
  states : GoMap State Unit
  alphabet : GoMap Symbol Unit
  start : State
  finals : GoMap State Unit
  trans : GoMap State (GoMap Symbol State)
  current : State
  deriving DecidableEq, Repr

/-- Go `NewFSM`. -/
def NewFSM (start : State) : FSM :=
  { states := GoMap.set [] start ()
    alphabet := []
    start := start
    finals := []
    trans := []
    current := start }

namespace FSM

/-- The double index `f.trans[q][s]` in comma-ok form; a missing inner map is the
nil map, in which every lookup misses. -/
def transLookup (f : FSM) (q : State) (s : Symbol) : Option State :=
  GoMap.get? ((GoMap.get? f.trans q).getD []) s

/-- Go `(*FSM).AddState`. -/
def AddState (f : FSM) (s : State) (isFinal : Bool) : FSM :=
  let f1 : FSM := { f with states := GoMap.set f.states s () }
  let f2 : FSM := if isFinal then { f1 with finals := GoMap.set f1.finals s () } else f1
  if GoMap.has f2.trans s then f2 else { f2 with trans := GoMap.set f2.trans s [] }

/-- Go `(*FSM).AddSymbol`. -/
def AddSymbol (f : FSM) (r : Int) : FSM :=
  { f with alphabet := GoMap.set f.alphabet r () }

/-- Go `(*FSM).AddTransition`. -/
def AddTransition (f : FSM) (from' : State) (symbol : Int) (to' : State) : Option Err × FSM :=
  if ¬ GoMap.has f.states from' then (some (.fromStateNotDefined from'), f)
  else if ¬ GoMap.has f.states to' then (some (.toStateNotDefined to'), f)
  else
    let s : Symbol := symbol
    if ¬ GoMap.has f.alphabet s then (some (.symbolNotInAlphabet symbol), f)
    else
      let f1 : FSM :=
        if GoMap.has f.trans from' then f else { f with trans := GoMap.set f.trans from' [] }
      if GoMap.has ((GoMap.get? f1.trans from').getD []) s then
        (some (.ErrDupTransition from' symbol), f1)
      else
        (none, { f1 with
          trans := GoMap.set f1.trans from' (GoMap.set ((GoMap.get? f1.trans from').getD []) s to') })

/-- Go `(*FSM).Validate`. -/
def Validate (f : FSM) : Option Err × FSM :=
  if GoMap.len f.states = 0 then (some .ErrNoStates, f)
  else if GoMap.len f.alphabet = 0 then (some .ErrEmptyAlphabet, f)
  else if ¬ GoMap.has f.states f.start then (some .ErrStartNotInStates, f)
  else (none, f)

/-- Go `(*FSM).IsFinal`. -/
def IsFinal (f : FSM) (s : State) : Bool := GoMap.has f.finals s

/-- Go `(*FSM).Reset`. -/
def Reset (f : FSM) : FSM := { f with current := f.start }

/-- Go `(*FSM).Step`. -/
def Step (f : FSM) (r : Int) (pos : Int) : Option Err × FSM :=
  let s : Symbol := r
  if ¬ GoMap.has f.alphabet s then (some (.ErrInvalidSymbol r pos), f)
  else
    match f.transLookup f.current s with
    | none => (some (.ErrNoTransition f.current r pos), f)
    | some next => (none, { f with current := next })

/-- Go `(*FSM).Current`. -/
def Current (f : FSM) : State := f.current

/-- Go `(*FSM).Accepting`. -/
def Accepting (f : FSM) : Bool := f.IsFinal f.current

/-- The loop `for i, r := range seq` of `Run`, entered at index `i` with the
remaining symbols, followed by the final `return f.current, nil`. -/
def runLoop (f : FSM) : List Int → Nat → (State × Option Err) × FSM
  | [], _ => ((f.current, none), f)
  | r :: rest, i =>
    match f.Step r (i : Int) with
    | (some err, f1) => (("", some err), f1)
    | (none, f1) => runLoop f1 rest (i + 1)

/-- Go `(*FSM).Run`. -/
def Run (f : FSM) (seq : List Int) : (State × Option Err) × FSM :=
  match f.Validate with
  | (some err, f1) => (("", some err), f1)
  | (none, f1) => runLoop f1.Reset seq 0

end FSM

/-- Go `unicode.IsSpace`: the Latin-1 white space characters and the code
points with the Unicode White_Space property above Latin-1. -/
def IsSpace (c : Char) : Bool :=
  let n := c.toNat
  if n ≤ 0xFF then
    n = 0x09 || n = 0x0A || n = 0x0B || n = 0x0C || n = 0x0D || n = 0x20 || n = 0x85 || n = 0xA0
  else
    n = 0x1680 || (0x2000 ≤ n && n ≤ 0x200A) || n = 0x2028 || n = 0x2029 || n = 0x202F
      || n = 0x205F || n = 0x3000

/-- Go `strings.TrimSpace`: the leading, then the trailing white space is cut. -/
def TrimSpace (s : String) : String :=
  ⟨List.rdropWhile IsSpace (List.dropWhile IsSpace s.data)⟩

/-- Go conversion `[]rune(input)`. -/
def runes (s : String) : List Int := s.data.map (fun c => (c.toNat : Int))

/-- Go `(*FSM).Process`. -/
def FSM.Process (f : FSM) (input : String) : (State × Option Err) × FSM :=
  f.Run (runes (TrimSpace input))

end fsm

/-! ## Package `modthree` -/

namespace modthree

open fsm

/-- Go constant `S0`. -/
def S0 : State := "S0"
/-- Go constant `S1`. -/
def S1 : State := "S1"
/-- Go constant `S2`. -/
def S2 : State := "S2"

/-- Go `BuildModThree`; the discarded results of `AddTransition` and `Validate`
are dropped with `.2`. -/
def BuildModThree : FSM :=
  let f := NewFSM S0
  let f := f.AddState S0 true
  let f := f.AddState S1 true
  let f := f.AddState S2 true
  let f := f.AddSymbol ('0'.toNat : Int)
  let f := f.AddSymbol ('1'.toNat : Int)
  let f := (f.AddTransition S0 ('0'.toNat : Int) S0).2
  let f := (f.AddTransition S0 ('1'.toNat : Int) S1).2
  let f := (f.AddTransition S1 ('0'.toNat : Int) S2).2
  let f := (f.AddTransition S1 ('1'.toNat : Int) S0).2
  let f := (f.AddTransition S2 ('0'.toNat : Int) S1).2
  let f := (f.AddTransition S2 ('1'.toNat : Int) S2).2
  let f := f.Validate.2
  f

/-- Go `ModThree`. -/
def ModThree (input : String) : Int × Option Err :=
  let input := TrimSpace input
  let f := BuildModThree
  match (f.Process input).1 with
  | (_, some err) => (-1, some (.invalidBinaryInput err))
  | (final, none) =>
    if final = S0 then (0, none)
    else if final = S1 then (1, none)
    else if final = S2 then (2, none)
    else (-1, some (.unknownFinalState final))

end modthree

/-! ## Automata of the test suite -/

namespace fsm

/-- The automaton of `TestRun_Current_Accepting_Reset`: `A -'0'-> B`, `B` final. -/
def testAB : FSM :=
  let f := NewFSM "A"
  let f := f.AddState "A" false
  let f := f.AddState "B" true
  let f := f.AddSymbol ('0'.toNat : Int)
  (f.AddTransition "A" ('0'.toNat : Int) "B").2

/-- The automaton of `TestProcess_Trim_RejectInternalSpace`: one final state `S`
with a loop on `'0'`. -/
def testLoop : FSM :=
  let f := NewFSM "S"
  let f := f.AddState "S" true
  let f := f.AddSymbol ('0'.toNat : Int)
  (f.AddTransition "S" ('0'.toNat : Int) "S").2

end fsm

/-- The automaton of `TestAddTransition_Determinism` before its first
`AddTransition`: states `A` and `B`, alphabet `'0'`, no transition. -/
def fsm.testDeterminism : fsm.FSM :=
  let f := fsm.NewFSM "A"
  let f := f.AddState "A" false
  let f := f.AddState "B" false
  f.AddSymbol ('0'.toNat : Int)

/-- The automaton of `TestAddTransition_SymbolNotInAlphabet`: states `A` and `B`,
empty alphabet. -/
def fsm.testNoSymbol : fsm.FSM :=
  let f := fsm.NewFSM "A"
  let f := f.AddState "A" false
  f.AddState "B" false

/-! ## Notions of the specification -/

namespace fsm

/-- The registered transition function as the specification reads it: defined at
`(q, s)` when `s` is in the alphabet and a transition is registered for `(q, s)`. -/
def FSM.delta (f : FSM) (q : State) (s : Symbol) : Option State :=
  if GoMap.has f.alphabet s then f.transLookup q s else none

/-- Fold of the registered transition function over a symbol sequence from `q`;
`none` as soon as one step is undefined. -/
def FSM.deltaFold (f : FSM) : State → List Symbol → Option State
  | q, [] => some q
  | q, s :: rest =>
    match f.delta q s with
    | none => none
    | some q1 => FSM.deltaFold f q1 rest

/-- The definition part of two automata agrees: same states, alphabet, finals,
start and the same result for every transition lookup (`current` is not compared). -/
def FSM.sameDefinition (g f : FSM) : Prop :=
  g.states = f.states ∧ g.alphabet = f.alphabet ∧ g.finals = f.finals ∧ g.start = f.start ∧
    ∀ q s, g.transLookup q s = f.transLookup q s

end fsm

/-! ## Binary numerals -/

namespace modthree

/-- The natural number a digit string denotes in binary, most significant bit
first, continuing from the value `n` of the digits already read. -/
def binaryFrom (n : Nat) (cs : List Char) : Nat :=
  cs.foldl (fun acc c => 2 * acc + (if c = '1' then 1 else 0)) n

/-- The natural number a digit string denotes in binary, most significant bit
first; the empty string denotes 0. -/
def binaryValue (cs : List Char) : Nat := binaryFrom 0 cs

/-- The state that stands for a remainder, the inverse of the `switch` of `ModThree`. -/
def stateOf (r : Nat) : fsm.State :=
  if r = 0 then S0 else if r = 1 then S1 else S2

end modthree

/-! ## Sequences of calls -/

namespace fsm

/-- One call of a public operation of the engine that takes the automaton by
pointer, with its arguments. -/
inductive Op where
  | AddState (s : State) (isFinal : Bool)
  | AddSymbol (r : Int)
  | AddTransition (from' : State) (symbol : Int) (to' : State)
  | Validate
  | Reset
  | Step (r : Int) (pos : Int)
  | Run (seq : List Int)
  | Process (input : String)
  deriving DecidableEq, Repr

/-- The automaton after one call, whatever the call returned. -/
def FSM.call (f : FSM) : Op → FSM
  | .AddState s isFinal => f.AddState s isFinal
  | .AddSymbol r => f.AddSymbol r
  | .AddTransition from' symbol to' => (f.AddTransition from' symbol to').2
  | .Validate => f.Validate.2
  | .Reset => f.Reset
  | .Step r pos => (f.Step r pos).2
  | .Run seq => (f.Run seq).2
  | .Process input => (f.Process input).2

/-- The automaton after a sequence of calls, made in order. -/
def FSM.calls (f : FSM) (ops : List Op) : FSM := ops.foldl FSM.call f

/-- Nothing registered in `f` is missing in `g`: every state and symbol of `f` is
one of `g`, and every transition lookup that hits in `f` gives the same target in `g`. -/
def FSM.keeps (g f : FSM) : Prop :=
  (∀ s, GoMap.has f.states s = true → GoMap.has g.states s = true) ∧
  (∀ a, GoMap.has f.alphabet a = true → GoMap.has g.alphabet a = true) ∧
  (∀ q s t, f.transLookup q s = some t → g.transLookup q s = some t)

end fsm

/-! ## The structural invariant and the trace of the factory -/

namespace fsm

/-- The structural invariant of the data model: `start` and `current` are in
`states`, every final state is in `states`, and every registered transition has its
source and its target in `states` and its symbol in the alphabet. -/
def FSM.wellFormed (f : FSM) : Prop :=
  GoMap.has f.states f.start = true ∧ GoMap.has f.states f.current = true ∧
  (∀ s, GoMap.has f.finals s = true → GoMap.has f.states s = true) ∧
  (∀ q s t, f.transLookup q s = some t →
    GoMap.has f.states q = true ∧ GoMap.has f.states t = true ∧ GoMap.has f.alphabet s = true)

/-- Two automata are at the same point of a run over the same table: same
alphabet, same result for every transition lookup, same `current`. -/
def FSM.agree (g f : FSM) : Prop :=
  g.alphabet = f.alphabet ∧ (∀ q s, g.transLookup q s = f.transLookup q s) ∧
    g.current = f.current

end fsm

namespace modthree

open fsm

/-- The body of `BuildModThree` with the seven results it discards (six
`AddTransition` calls, then `Validate`) kept in call order, beside the automaton
it returns. -/
def BuildModThreeTrace : List (Option Err) × FSM :=
  let f := NewFSM S0
  let f := f.AddState S0 true
  let f := f.AddState S1 true
  let f := f.AddState S2 true
  let f := f.AddSymbol ('0'.toNat : Int)
  let f := f.AddSymbol ('1'.toNat : Int)
  let r1 := f.AddTransition S0 ('0'.toNat : Int) S0
  let r2 := r1.2.AddTransition S0 ('1'.toNat : Int) S1
  let r3 := r2.2.AddTransition S1 ('0'.toNat : Int) S2
  let r4 := r3.2.AddTransition S1 ('1'.toNat : Int) S0
  let r5 := r4.2.AddTransition S2 ('0'.toNat : Int) S1
  let r6 := r5.2.AddTransition S2 ('1'.toNat : Int) S2
  let v := r6.2.Validate
  ([r1.1, r2.1, r3.1, r4.1, r5.1, r6.1, v.1], v.2)

end modthree

open fsm modthree

/-! ## Lemmas on Go maps -/

namespace GoMap

variable {K V : Type} [DecidableEq K]

theorem get?_set_self (m : GoMap K V) (k : K) (v : V) : get? (set m k v) k = some v := by
  induction m with
  | nil => simp [set, get?]
  | cons p m ih =>
    obtain ⟨k1, v1⟩ := p
    by_cases h : k1 = k
    · simp [set, get?, h]
    · simp [set, get?, h, ih]

theorem get?_set_ne (m : GoMap K V) {k k2 : K} (v : V) (h : k ≠ k2) :
    get? (set m k v) k2 = get? m k2 := by
  induction m with
  | nil => simp [set, get?, h]
  | cons p m ih =>
    obtain ⟨k1, v1⟩ := p
    by_cases h1 : k1 = k
    · subst h1
      simp [set, get?, h]
    · simp [set, get?, h1, ih]

theorem has_set_self (m : GoMap K V) (k : K) (v : V) : has (set m k v) k = true := by
  simp [has, get?_set_self]

theorem has_set_ne (m : GoMap K V) {k k2 : K} (v : V) (h : k ≠ k2) :
    has (set m k v) k2 = has m k2 := by
  simp [has, get?_set_ne m v h]

theorem has_set_of_has (m : GoMap K V) (k k2 : K) (v : V) (h : has m k2 = true) :
    has (set m k v) k2 = true := by
  by_cases hk : k = k2
  · subst hk
    exact has_set_self m k v
  · rw [has_set_ne m v hk]
    exact h

theorem len_eq_zero_iff (m : GoMap K V) : len m = 0 ↔ ∀ k, has m k = false := by
  cases m with
  | nil => simp [len, has, get?]
  | cons p m =>
    obtain ⟨k1, v1⟩ := p
    simp only [len, List.length_cons, Nat.succ_ne_zero, false_iff, not_forall]
    exact ⟨k1, by simp [has, get?]⟩

theorem len_ne_zero_iff (m : GoMap K V) : len m ≠ 0 ↔ ∃ k, has m k = true := by
  rw [Ne, len_eq_zero_iff]
  simp

theorem set_unit_of_has (m : GoMap K Unit) (k : K) (h : has m k = true) : set m k () = m := by
  induction m with
  | nil => simp [has, get?] at h
  | cons p m ih =>
    obtain ⟨k1, v1⟩ := p
    by_cases h1 : k1 = k
    · subst h1
      simp [set]
    · have h2 : has m k = true := by simpa [has, get?, h1] using h
      simp [set, h1, ih h2]

end GoMap

/-! ## Validation, single steps and the frame of execution -/

namespace fsm

theorem Validate_snd (f : FSM) : f.Validate.2 = f := by
  unfold FSM.Validate
  split_ifs <;> rfl

theorem Validate_eq_none_iff (f : FSM) :
    f.Validate.1 = none ↔
      GoMap.len f.states ≠ 0 ∧ GoMap.len f.alphabet ≠ 0 ∧ GoMap.has f.states f.start = true := by
  unfold FSM.Validate
  split_ifs <;> simp_all

theorem Step_invalid (f : FSM) (r pos : Int) (h : GoMap.has f.alphabet r = false) :
    f.Step r pos = (some (Err.ErrInvalidSymbol r pos), f) := by
  simp [FSM.Step, h]

theorem Step_snd_of_fail (f : FSM) (r pos : Int) (e : Err) (h : (f.Step r pos).1 = some e) :
    (f.Step r pos).2 = f := by
  by_cases ha : GoMap.has f.alphabet r = true
  · cases hl : f.transLookup f.current r with
    | none => simp [FSM.Step, ha, hl]
    | some next => simp [FSM.Step, ha, hl] at h
  · simp [FSM.Step, ha]

end fsm

/-- C7: `Validate` succeeds exactly when `states` has a member, the alphabet has a
member and `start` is in `states`; it reports `ErrNoStates` when `states` is empty,
otherwise `ErrEmptyAlphabet` when the alphabet is empty, otherwise
`ErrStartNotInStates` when `start` is not in `states`; the result is the same for
every transition table, and the automaton after the call is the automaton before. -/
theorem C7_validate_complete (f : FSM) :
    (f.Validate.1 = none ↔
      (∃ s, GoMap.has f.states s = true) ∧ (∃ a, GoMap.has f.alphabet a = true) ∧
        GoMap.has f.states f.start = true) ∧
    ((∀ s, GoMap.has f.states s = false) → f.Validate.1 = some Err.ErrNoStates) ∧
    ((∃ s, GoMap.has f.states s = true) → (∀ a, GoMap.has f.alphabet a = false) →
      f.Validate.1 = some Err.ErrEmptyAlphabet) ∧
    ((∃ s, GoMap.has f.states s = true) → (∃ a, GoMap.has f.alphabet a = true) →
      GoMap.has f.states f.start = false → f.Validate.1 = some Err.ErrStartNotInStates) ∧
    (∀ t : GoMap State (GoMap Symbol State),
      (FSM.Validate { f with trans := t }).1 = f.Validate.1) ∧
    f.Validate.2 = f := by
  refine ⟨?_, ?_, ?_, ?_, ?_, Validate_snd f⟩
  · rw [Validate_eq_none_iff, GoMap.len_ne_zero_iff, GoMap.len_ne_zero_iff]
  · intro h
    have h0 := (GoMap.len_eq_zero_iff f.states).2 h
    simp [FSM.Validate, h0]
  · intro hs ha
    have h0 := (GoMap.len_ne_zero_iff f.states).2 hs
    have h1 := (GoMap.len_eq_zero_iff f.alphabet).2 ha
    simp [FSM.Validate, h0, h1]
  · intro hs ha hst
    have h0 := (GoMap.len_ne_zero_iff f.states).2 hs
    have h1 := (GoMap.len_ne_zero_iff f.alphabet).2 ha
    simp [FSM.Validate, h0, h1, hst]
  · intro t
    unfold FSM.Validate
    split_ifs <;> rfl

/-- Witness of C7: the automaton `A -'0'-> B` validates; with `states` emptied (as
in `TestValidate_NoStates`) the result is `ErrNoStates`, without symbols it is
`ErrEmptyAlphabet`, and with `start` moved to an unregistered `X` (as in
`TestValidate_StartNotInStates`) it is `ErrStartNotInStates`. -/
theorem C7_validate_complete_witness :
    testAB.Validate.1 = none ∧
    (FSM.Validate { testAB with states := [] }).1 = some Err.ErrNoStates ∧
    testNoSymbol.Validate.1 = some Err.ErrEmptyAlphabet ∧
    (FSM.Validate { testAB with start := "X" }).1 = some Err.ErrStartNotInStates :=
  ⟨(C7_validate_complete testAB).1.2 ⟨⟨"A", by decide⟩, ⟨48, by decide⟩, by decide⟩,
    (C7_validate_complete { testAB with states := [] }).2.1 (fun _ => rfl),
    (C7_validate_complete testNoSymbol).2.2.1 ⟨"A", by decide⟩ (fun _ => rfl),
    (C7_validate_complete { testAB with start := "X" }).2.2.2.1
      ⟨"A", by decide⟩ ⟨48, by decide⟩ (by decide)⟩

/-- C6: `Step` on a symbol outside the alphabet fails with `ErrInvalidSymbol`
carrying the symbol and the position; on a symbol of the alphabet without a
registered transition from `current` it fails with `ErrNoTransition` carrying
`current`, the symbol and the position; otherwise it succeeds and `current`
becomes the registered target.  A failed `Step` leaves `current` as it was. -/
theorem C6_step_contract (f : FSM) (r pos : Int) :
    (GoMap.has f.alphabet r = false →
      f.Step r pos = (some (Err.ErrInvalidSymbol r pos), f)) ∧
    (GoMap.has f.alphabet r = true → f.transLookup f.current r = none →
      f.Step r pos = (some (Err.ErrNoTransition f.current r pos), f)) ∧
    (∀ next, GoMap.has f.alphabet r = true → f.transLookup f.current r = some next →
      f.Step r pos = (none, { f with current := next })) ∧
    (∀ e, (f.Step r pos).1 = some e → (f.Step r pos).2.current = f.current) := by
  refine ⟨Step_invalid f r pos, ?_, ?_, ?_⟩
  · intro h hl
    simp [FSM.Step, h, hl]
  · intro next h hl
    simp [FSM.Step, h, hl]
  · intro e he
    rw [Step_snd_of_fail f r pos e he]

/-- Witness of C6: on `A -'0'-> B` at `A`, the symbol `'1'` is invalid and `'0'`
moves the cursor to `B`; without the transition, `'0'` has no transition from `A`. -/
theorem C6_step_contract_witness :
    testAB.Step 49 0 = (some (Err.ErrInvalidSymbol 49 0), testAB) ∧
    testDeterminism.Step 48 0 = (some (Err.ErrNoTransition "A" 48 0), testDeterminism) ∧
    testAB.Step 48 0 = (none, { testAB with current := "B" }) ∧
    (testAB.Step 49 0).2.current = testAB.current :=
  ⟨(C6_step_contract testAB 49 0).1 (by decide),
    (C6_step_contract testDeterminism 48 0).2.1 (by decide) (by decide),
    (C6_step_contract testAB 48 0).2.2.1 "B" (by decide) (by decide),
    (C6_step_contract testAB 49 0).2.2.2 (Err.ErrInvalidSymbol 49 0) (by decide)⟩

/-! ## Runs -/

namespace fsm

theorem Validate_eq_of_ok (f : FSM) (h : f.Validate.1 = none) : f.Validate = (none, f) :=
  Prod.ext h (Validate_snd f)

theorem Step_frame (f : FSM) (r pos : Int) :
    (f.Step r pos).2 = { f with current := (f.Step r pos).2.current } := by
  by_cases ha : GoMap.has f.alphabet r = true
  · cases hl : f.transLookup f.current r with
    | none => simp [FSM.Step, ha, hl]
    | some next => simp [FSM.Step, ha, hl]
  · simp [FSM.Step, ha]

theorem deltaFold_congr (g f : FSM) (ha : g.alphabet = f.alphabet) (ht : g.trans = f.trans)
    (q : State) (seq : List Symbol) : g.deltaFold q seq = f.deltaFold q seq := by
  induction seq generalizing q with
  | nil => rfl
  | cons s rest ih =>
    have hd : g.delta q s = f.delta q s := by
      simp [FSM.delta, FSM.transLookup, ha, ht]
    simp only [FSM.deltaFold, hd]
    cases f.delta q s with
    | none => rfl
    | some q1 => exact ih q1

theorem Step_of_delta_some (f : FSM) (r pos : Int) (q : State) (h : f.delta f.current r = some q) :
    f.Step r pos = (none, { f with current := q }) := by
  by_cases ha : GoMap.has f.alphabet r = true
  · simp only [FSM.delta, ha, if_true] at h
    simp [FSM.Step, ha, h]
  · simp [FSM.delta, ha] at h

theorem Step_of_delta_none (f : FSM) (r pos : Int) (h : f.delta f.current r = none) :
    ∃ e, f.Step r pos = (some e, f) := by
  by_cases ha : GoMap.has f.alphabet r = true
  · simp only [FSM.delta, ha, if_true] at h
    exact ⟨Err.ErrNoTransition f.current r pos, by simp [FSM.Step, ha, h]⟩
  · exact ⟨Err.ErrInvalidSymbol r pos, by simp [FSM.Step, ha]⟩

theorem runLoop_of_fold_some (seq : List Int) (f : FSM) (i : Nat) (q : State)
    (h : f.deltaFold f.current seq = some q) :
    f.runLoop seq i = ((q, none), { f with current := q }) := by
  induction seq generalizing f i with
  | nil =>
    simp only [FSM.deltaFold, Option.some.injEq] at h
    subst h
    rfl
  | cons r rest ih =>
    simp only [FSM.deltaFold] at h
    cases hd : f.delta f.current r with
    | none => simp [hd] at h
    | some q1 =>
      simp only [hd] at h
      have hf : FSM.deltaFold { f with current := q1 } q1 rest = some q := by
        rw [deltaFold_congr { f with current := q1 } f rfl rfl]
        exact h
      simp only [FSM.runLoop, Step_of_delta_some f r i q1 hd]
      exact ih { f with current := q1 } (i + 1) hf

theorem runLoop_of_fold_none (seq : List Int) (f : FSM) (i : Nat)
    (h : f.deltaFold f.current seq = none) :
    ∃ e, (f.runLoop seq i).1 = ("", some e) := by
  induction seq generalizing f i with
  | nil => simp [FSM.deltaFold] at h
  | cons r rest ih =>
    simp only [FSM.deltaFold] at h
    cases hd : f.delta f.current r with
    | none =>
      obtain ⟨e, he⟩ := Step_of_delta_none f r i hd
      exact ⟨e, by simp [FSM.runLoop, he]⟩
    | some q1 =>
      simp only [hd] at h
      have hf : FSM.deltaFold { f with current := q1 } q1 rest = none := by
        rw [deltaFold_congr { f with current := q1 } f rfl rfl]
        exact h
      simp only [FSM.runLoop, Step_of_delta_some f r i q1 hd]
      exact ih { f with current := q1 } (i + 1) hf

theorem runLoop_frame (seq : List Int) (f : FSM) (i : Nat) :
    (f.runLoop seq i).2 = { f with current := (f.runLoop seq i).2.current } := by
  induction seq generalizing f i with
  | nil => rfl
  | cons r rest ih =>
    have hs := Step_frame f r i
    rcases hstep : f.Step r i with ⟨_ | e, f1⟩
    · rw [hstep] at hs
      simp only [FSM.runLoop, hstep]
      rw [ih f1 (i + 1)]
      simp only at hs
      rw [hs]
    · rw [hstep] at hs
      simp only [FSM.runLoop, hstep]
      exact hs

theorem Run_of_ok (f : FSM) (seq : List Int) (h : f.Validate.1 = none) :
    f.Run seq = f.Reset.runLoop seq 0 := by
  simp [FSM.Run, Validate_eq_of_ok f h]

theorem Run_of_fail (f : FSM) (seq : List Int) (e : Err) (h : f.Validate.1 = some e) :
    f.Run seq = (("", some e), f) := by
  have h2 : f.Validate = (some e, f) := Prod.ext h (Validate_snd f)
  simp [FSM.Run, h2]

theorem Run_frame (f : FSM) (seq : List Int) :
    (f.Run seq).2 = { f with current := (f.Run seq).2.current } := by
  cases hv : f.Validate.1 with
  | none =>
    rw [Run_of_ok f seq hv]
    have := runLoop_frame seq f.Reset 0
    rw [this]
    rfl
  | some e => rw [Run_of_fail f seq e hv]

end fsm

namespace fsm

theorem runLoop_append (pre rest : List Int) (f : FSM) (i : Nat) (q : State)
    (h : f.deltaFold f.current pre = some q) :
    f.runLoop (pre ++ rest) i = FSM.runLoop { f with current := q } rest (i + pre.length) := by
  induction pre generalizing f i with
  | nil =>
    simp only [FSM.deltaFold, Option.some.injEq] at h
    subst h
    rfl
  | cons r pre ih =>
    simp only [FSM.deltaFold] at h
    cases hd : f.delta f.current r with
    | none => simp [hd] at h
    | some q1 =>
      simp only [hd] at h
      have hf : FSM.deltaFold { f with current := q1 } q1 pre = some q := by
        rw [deltaFold_congr { f with current := q1 } f rfl rfl]
        exact h
      have hstep := ih { f with current := q1 } (i + 1) hf
      have hi : i + 1 + pre.length = i + (r :: pre).length := by
        simp only [List.length_cons]
        omega
      rw [hi] at hstep
      rw [← hstep]
      show f.runLoop (r :: (pre ++ rest)) i = _
      simp only [FSM.runLoop, Step_of_delta_some f r i q1 hd]

theorem Run_invalid_at (f : FSM) (pre rest : List Int) (bad : Int) (q : State)
    (hv : f.Validate.1 = none) (hpre : f.deltaFold f.start pre = some q)
    (hbad : GoMap.has f.alphabet bad = false) :
    f.Run (pre ++ bad :: rest) =
      (("", some (Err.ErrInvalidSymbol bad (pre.length : Int))), { f with current := q }) := by
  have hcur : f.Reset.deltaFold f.Reset.current pre = some q :=
    (deltaFold_congr f.Reset f rfl rfl f.start pre).trans hpre
  rw [Run_of_ok f _ hv, runLoop_append pre (bad :: rest) f.Reset 0 q hcur]
  have hb : GoMap.has ({ f.Reset with current := q } : FSM).alphabet bad = false := hbad
  simp only [FSM.runLoop, Step_invalid _ bad _ hb]
  simp [FSM.Reset]

theorem sameDefinition_of_frame (f : FSM) (c : State) :
    FSM.sameDefinition { f with current := c } f :=
  ⟨rfl, rfl, rfl, rfl, fun _ _ => rfl⟩

end fsm

/-- C2: on an automaton that validates, `Run seq` succeeds exactly when the fold of
the registered transition function over `seq` from `start` is defined; then the
returned state is the value of the fold, `Current` afterwards is that state and
`Accepting` afterwards holds iff that state is in `finals`. -/
theorem C2_run_is_fold (f : FSM) (seq : List Int) (hv : f.Validate.1 = none) :
    ((f.Run seq).1.2 = none ↔ (f.deltaFold f.start seq).isSome = true) ∧
    (∀ q, f.deltaFold f.start seq = some q →
      (f.Run seq).1 = (q, none) ∧ (f.Run seq).2.Current = q ∧
        ((f.Run seq).2.Accepting = true ↔ GoMap.has f.finals q = true)) := by
  rw [Run_of_ok f seq hv]
  have hcur : f.Reset.deltaFold f.Reset.current seq = f.deltaFold f.start seq :=
    deltaFold_congr f.Reset f rfl rfl f.start seq
  constructor
  · cases hd : f.deltaFold f.start seq with
    | none =>
      obtain ⟨e, he⟩ := runLoop_of_fold_none seq f.Reset 0 (hcur.trans hd)
      simp [he]
    | some q =>
      rw [runLoop_of_fold_some seq f.Reset 0 q (hcur.trans hd)]
      simp
  · intro q hd
    rw [runLoop_of_fold_some seq f.Reset 0 q (hcur.trans hd)]
    exact ⟨rfl, rfl, Iff.rfl⟩

/-- Witness of C2 on the automaton `A -'0'-> B` and the sequence `['0']`. -/
theorem C2_run_is_fold_witness :
    testAB.Validate.1 = none ∧
    (((testAB.Run [48]).1.2 = none ↔ (testAB.deltaFold testAB.start [48]).isSome = true) ∧
    (∀ q, testAB.deltaFold testAB.start [48] = some q →
      (testAB.Run [48]).1 = (q, none) ∧ (testAB.Run [48]).2.Current = q ∧
        ((testAB.Run [48]).2.Accepting = true ↔ GoMap.has testAB.finals q = true))) :=
  ⟨by decide, C2_run_is_fold testAB [48] (by decide)⟩

/-- C3: on an automaton that validates, when the first `k` symbols `pre` of the
sequence are consumed successfully from `start` (reaching `q`) and the symbol `bad`
at index `k` is outside the alphabet, `Run` fails with `ErrInvalidSymbol` carrying
`bad` and the position `k`; the cursor stops at `q`, and the whole outcome is the
one of the sequence cut after index `k`: nothing behind `bad` is stepped. -/
theorem C3_fail_fast_position (f : FSM) (pre post : List Int) (bad : Int) (q : State)
    (hv : f.Validate.1 = none) (hpre : f.deltaFold f.start pre = some q)
    (hbad : GoMap.has f.alphabet bad = false) :
    (f.Run (pre ++ bad :: post)).1 = ("", some (Err.ErrInvalidSymbol bad (pre.length : Int))) ∧
    (f.Run (pre ++ bad :: post)).2 = { f with current := q } ∧
    f.Run (pre ++ bad :: post) = f.Run (pre ++ [bad]) := by
  have key := fun rest => Run_invalid_at f pre rest bad q hv hpre hbad
  refine ⟨?_, ?_, ?_⟩
  · rw [key post]
  · rw [key post]
  · rw [key post, key []]

/-- Witness of C3: on `A -'0'-> B`, the sequence `['0', '1', '0']` has the symbol
`'1'`, outside the alphabet, at index 1. -/
theorem C3_fail_fast_position_witness :
    (testAB.Run ([48] ++ 49 :: [48])).1 = ("", some (Err.ErrInvalidSymbol 49 1)) ∧
    (testAB.Run ([48] ++ 49 :: [48])).2 = { testAB with current := "B" } ∧
    testAB.Run ([48] ++ 49 :: [48]) = testAB.Run ([48] ++ [49]) :=
  C3_fail_fast_position testAB [48] [48] 49 "B" (by decide) (by decide) (by decide)

/-- C9: on an automaton that validates, whatever `current` is, `Run` on the empty
sequence and `Process` on the empty string succeed, return `start` and leave
`current` equal to `start`. -/
theorem C9_empty_input (f : FSM) (hv : f.Validate.1 = none) :
    f.Run [] = ((f.start, none), { f with current := f.start }) ∧
    f.Process "" = ((f.start, none), { f with current := f.start }) := by
  have h : f.Run [] = ((f.start, none), { f with current := f.start }) := by
    rw [Run_of_ok f [] hv]
    rfl
  exact ⟨h, h⟩

/-- Witness of C9 on `A -'0'-> B` with the cursor left at `B`. -/
theorem C9_empty_input_witness :
    FSM.Run { testAB with current := "B" } [] = (("A", none), testAB) ∧
    FSM.Process { testAB with current := "B" } "" = (("A", none), testAB) :=
  C9_empty_input { testAB with current := "B" } (by decide)

/-- C10: `Reset`, `Step`, `Run` and `Process`, successful or failed, leave the
states, the alphabet, the finals, the start state and every transition lookup as
they were; only `current` may differ. -/
theorem C10_execution_frame (f : FSM) (r pos : Int) (seq : List Int) (input : String) :
    FSM.sameDefinition f.Reset f ∧ FSM.sameDefinition (f.Step r pos).2 f ∧
    FSM.sameDefinition (f.Run seq).2 f ∧ FSM.sameDefinition (f.Process input).2 f := by
  refine ⟨sameDefinition_of_frame f _, ?_, ?_, ?_⟩
  · rw [Step_frame f r pos]
    exact sameDefinition_of_frame f _
  · rw [Run_frame f seq]
    exact sameDefinition_of_frame f _
  · unfold FSM.Process
    rw [Run_frame f _]
    exact sameDefinition_of_frame f _

/-! ## Registration of transitions -/

namespace GoMap

variable {K V : Type} [DecidableEq K]

theorem set_set (m : GoMap K V) (k : K) (v w : V) : set (set m k v) k w = set m k w := by
  induction m with
  | nil => simp [set]
  | cons p m ih =>
    obtain ⟨k1, v1⟩ := p
    by_cases h1 : k1 = k
    · simp [set, h1]
    · simp [set, h1, ih]

theorem get?_eq_none_of_has_false (m : GoMap K V) (k : K) (h : has m k = false) :
    get? m k = none := by
  simpa [has] using h

end GoMap

namespace fsm

/-- The body of `AddTransition` with the creation of the inner map folded into
the final assignment. -/
theorem AddTransition_eq (f : FSM) (from' : State) (symbol : Int) (to' : State) :
    f.AddTransition from' symbol to' =
      if GoMap.has f.states from' = false then (some (Err.fromStateNotDefined from'), f)
      else if GoMap.has f.states to' = false then (some (Err.toStateNotDefined to'), f)
      else if GoMap.has f.alphabet symbol = false then (some (Err.symbolNotInAlphabet symbol), f)
      else if (f.transLookup from' symbol).isSome = true then
        (some (Err.ErrDupTransition from' symbol), f)
      else
        (none, { f with
          trans := GoMap.set f.trans from'
            (GoMap.set ((GoMap.get? f.trans from').getD []) symbol to') }) := by
  unfold FSM.AddTransition
  by_cases h1 : GoMap.has f.states from' = true
  · by_cases h2 : GoMap.has f.states to' = true
    · by_cases h3 : GoMap.has f.alphabet symbol = true
      · by_cases h4 : GoMap.has f.trans from' = true
        · simp only [h1, h2, h3, h4, not_true_eq_false, if_false, if_true, Bool.true_eq_false]
          simp only [FSM.transLookup, GoMap.has]
        · have h5 : GoMap.get? f.trans from' = none :=
            GoMap.get?_eq_none_of_has_false _ _ (by simpa using h4)
          simp only [h1, h2, h3, h4, not_true_eq_false, if_false, if_true, Bool.true_eq_false,
            Bool.false_eq_true]
          simp [h5, FSM.transLookup, GoMap.has, GoMap.get?_set_self, GoMap.get?, GoMap.set_set]
      · simp [h1, h2, h3]
    · simp [h1, h2]
  · simp [h1]

theorem AddTransition_fst_eq_none_iff (f : FSM) (from' : State) (symbol : Int) (to' : State) :
    (f.AddTransition from' symbol to').1 = none ↔
      GoMap.has f.states from' = true ∧ GoMap.has f.states to' = true ∧
        GoMap.has f.alphabet symbol = true ∧ f.transLookup from' symbol = none := by
  rw [AddTransition_eq]
  cases hl : f.transLookup from' symbol <;> split_ifs <;> simp_all

theorem transLookup_set_self (f : FSM) (q : State) (m : GoMap Symbol State) (s : Symbol) :
    FSM.transLookup { f with trans := GoMap.set f.trans q m } q s = GoMap.get? m s := by
  simp [FSM.transLookup, GoMap.get?_set_self]

theorem transLookup_set_ne (f : FSM) {q q2 : State} (m : GoMap Symbol State) (s : Symbol)
    (h : q ≠ q2) :
    FSM.transLookup { f with trans := GoMap.set f.trans q m } q2 s = f.transLookup q2 s := by
  simp [FSM.transLookup, GoMap.get?_set_ne _ _ h]

theorem AddTransition_lookup (f : FSM) (from' : State) (symbol : Int) (to' : State)
    (h : (f.AddTransition from' symbol to').1 = none) (q : State) (s : Symbol) :
    (f.AddTransition from' symbol to').2.transLookup q s =
      if q = from' ∧ s = symbol then some to' else f.transLookup q s := by
  obtain ⟨h1, h2, h3, h4⟩ := (AddTransition_fst_eq_none_iff f from' symbol to').1 h
  rw [AddTransition_eq]
  simp only [h1, h2, h3, h4, Option.isSome_none, Bool.true_eq_false, Bool.false_eq_true,
    if_false]
  by_cases hq : q = from'
  · subst hq
    rw [transLookup_set_self]
    by_cases hs : s = symbol
    · subst hs
      simp [GoMap.get?_set_self]
    · have hs2 : symbol ≠ s := fun e => hs e.symm
      simp [hs, GoMap.get?_set_ne _ _ hs2, FSM.transLookup]
  · have hq2 : from' ≠ q := fun e => hq e.symm
    rw [transLookup_set_ne f _ s hq2]
    simp [hq]

end fsm

/-- C5 (amended): `AddTransition(from, symbol, to)` succeeds iff `from` and `to` are
in `states`, `symbol` is in the alphabet and no target is registered for
`(from, symbol)`; it fails with an undefined-state error when `from` or `to` is not
in `states`, and with an undefined-symbol error when `from` and `to` are in `states`
and `symbol` is not in the alphabet.  On success the lookup for `(from, symbol)`
yields `to` and the lookup for every other pair is unchanged. -/
theorem C5_add_transition_contract (f : FSM) (from' : State) (symbol : Int) (to' : State) :
    ((f.AddTransition from' symbol to').1 = none ↔
      GoMap.has f.states from' = true ∧ GoMap.has f.states to' = true ∧
        GoMap.has f.alphabet symbol = true ∧ f.transLookup from' symbol = none) ∧
    (GoMap.has f.states from' = false ∨ GoMap.has f.states to' = false →
      ∃ e, (f.AddTransition from' symbol to').1 = some e ∧ e.isUndefinedState = true) ∧
    (GoMap.has f.states from' = true → GoMap.has f.states to' = true →
      GoMap.has f.alphabet symbol = false →
      ∃ e, (f.AddTransition from' symbol to').1 = some e ∧ e.isUndefinedSymbol = true) ∧
    ((f.AddTransition from' symbol to').1 = none →
      (f.AddTransition from' symbol to').2.transLookup from' symbol = some to' ∧
      ∀ q s, (q, s) ≠ (from', symbol) →
        (f.AddTransition from' symbol to').2.transLookup q s = f.transLookup q s) := by
  refine ⟨AddTransition_fst_eq_none_iff f from' symbol to', ?_, ?_, ?_⟩
  · intro h
    rw [AddTransition_eq]
    by_cases h1 : GoMap.has f.states from' = false
    · exact ⟨Err.fromStateNotDefined from', by simp [h1], rfl⟩
    · have h2 : GoMap.has f.states to' = false := h.resolve_left h1
      exact ⟨Err.toStateNotDefined to', by simp [h1, h2], rfl⟩
  · intro h1 h2 h3
    rw [AddTransition_eq]
    exact ⟨Err.symbolNotInAlphabet symbol, by simp [h1, h2, h3], rfl⟩
  · intro h
    constructor
    · rw [AddTransition_lookup f from' symbol to' h]
      simp
    · intro q s hne
      rw [AddTransition_lookup f from' symbol to' h]
      have : ¬ (q = from' ∧ s = symbol) := fun hh => hne (by rw [hh.1, hh.2])
      simp [this]

/-- Witness of C5: registering `A -'0'-> B` on the automaton with states `A`, `B`
and alphabet `'0'` succeeds and is then found by the lookup. -/
theorem C5_add_transition_contract_witness :
    (testDeterminism.AddTransition "A" 48 "B").1 = none ∧
    (testDeterminism.AddTransition "A" 48 "B").2.transLookup "A" 48 = some "B" ∧
    ∀ q s, (q, s) ≠ (("A" : State), (48 : Int)) →
      (testDeterminism.AddTransition "A" 48 "B").2.transLookup q s =
        testDeterminism.transLookup q s :=
  ⟨by decide, (C5_add_transition_contract testDeterminism "A" 48 "B").2.2.2 (by decide)⟩

/-- C5 as stated fails: with `from` outside `states` and the symbol outside the
alphabet, `AddTransition` reports the undefined from-state, not an undefined symbol. -/
theorem C5_counterexample :
    GoMap.has testNoSymbol.alphabet 49 = false ∧
    (testNoSymbol.AddTransition "X" 49 "B").1 = some (Err.fromStateNotDefined "X") ∧
    (Err.fromStateNotDefined "X").isUndefinedSymbol = false := by
  decide

/-! ## Nothing registered is ever removed -/

namespace fsm

theorem keeps_refl (f : FSM) : FSM.keeps f f :=
  ⟨fun _ h => h, fun _ h => h, fun _ _ _ h => h⟩

theorem keeps_trans {h g f : FSM} (hg : FSM.keeps h g) (gf : FSM.keeps g f) : FSM.keeps h f :=
  ⟨fun s x => hg.1 s (gf.1 s x), fun a x => hg.2.1 a (gf.2.1 a x),
    fun q s t x => hg.2.2 q s t (gf.2.2 q s t x)⟩

theorem keeps_of_sameDefinition {g f : FSM} (h : FSM.sameDefinition g f) : FSM.keeps g f := by
  obtain ⟨h1, h2, _, _, h5⟩ := h
  refine ⟨fun s x => by rw [h1]; exact x, fun a x => by rw [h2]; exact x, fun q s t x => ?_⟩
  rw [h5]
  exact x

theorem AddState_transLookup (f : FSM) (st : State) (isFinal : Bool) (q : State) (s : Symbol) :
    (f.AddState st isFinal).transLookup q s = f.transLookup q s := by
  have key : ∀ g : FSM, FSM.transLookup
      (if GoMap.has g.trans st then g else { g with trans := GoMap.set g.trans st [] }) q s =
        g.transLookup q s := by
    intro g
    by_cases h : GoMap.has g.trans st = true
    · simp [h]
    · have h5 : GoMap.get? g.trans st = none :=
        GoMap.get?_eq_none_of_has_false _ _ (by simpa using h)
      simp only [h, Bool.false_eq_true, if_false]
      by_cases hq : st = q
      · subst hq
        rw [transLookup_set_self]
        simp [FSM.transLookup, h5]
      · exact transLookup_set_ne g [] s hq
  unfold FSM.AddState
  cases isFinal
  · exact key _
  · exact key _

theorem AddState_states (f : FSM) (st : State) (isFinal : Bool) :
    (f.AddState st isFinal).states = GoMap.set f.states st () := by
  unfold FSM.AddState
  cases isFinal <;> simp only [] <;> split_ifs <;> rfl

theorem AddState_alphabet (f : FSM) (st : State) (isFinal : Bool) :
    (f.AddState st isFinal).alphabet = f.alphabet := by
  unfold FSM.AddState
  cases isFinal <;> simp only [] <;> split_ifs <;> rfl

theorem AddTransition_states (f : FSM) (from' : State) (symbol : Int) (to' : State) :
    (f.AddTransition from' symbol to').2.states = f.states := by
  rw [AddTransition_eq]
  split_ifs <;> rfl

theorem AddTransition_alphabet (f : FSM) (from' : State) (symbol : Int) (to' : State) :
    (f.AddTransition from' symbol to').2.alphabet = f.alphabet := by
  rw [AddTransition_eq]
  split_ifs <;> rfl

theorem AddTransition_snd_of_fail (f : FSM) (from' : State) (symbol : Int) (to' : State) (e : Err)
    (h : (f.AddTransition from' symbol to').1 = some e) :
    (f.AddTransition from' symbol to').2 = f := by
  rw [AddTransition_eq] at h ⊢
  split_ifs at h ⊢ <;> rfl

theorem AddTransition_keeps (f : FSM) (from' : State) (symbol : Int) (to' : State) :
    FSM.keeps (f.AddTransition from' symbol to').2 f := by
  cases h : (f.AddTransition from' symbol to').1 with
  | some e =>
    rw [AddTransition_snd_of_fail f from' symbol to' e h]
    exact keeps_refl f
  | none =>
    refine ⟨fun s x => ?_, fun a x => ?_, fun q s t x => ?_⟩
    · rw [AddTransition_states]
      exact x
    · rw [AddTransition_alphabet]
      exact x
    · rw [AddTransition_lookup f from' symbol to' h]
      have h4 := ((AddTransition_fst_eq_none_iff f from' symbol to').1 h).2.2.2
      have : ¬ (q = from' ∧ s = symbol) := by
        rintro ⟨rfl, rfl⟩
        rw [h4] at x
        simp at x
      simp [this, x]

theorem call_keeps (f : FSM) (op : Op) : FSM.keeps (f.call op) f := by
  cases op with
  | AddState st isFinal =>
    refine ⟨fun s x => ?_, fun a x => ?_, fun q s t x => ?_⟩
    · show GoMap.has (f.AddState st isFinal).states s = true
      rw [AddState_states]
      exact GoMap.has_set_of_has _ _ _ _ x
    · show GoMap.has (f.AddState st isFinal).alphabet a = true
      rw [AddState_alphabet]
      exact x
    · show (f.AddState st isFinal).transLookup q s = some t
      rw [AddState_transLookup]
      exact x
  | AddSymbol r =>
    exact ⟨fun s x => x, fun a x => GoMap.has_set_of_has _ _ _ _ x, fun q s t x => x⟩
  | AddTransition from' symbol to' => exact AddTransition_keeps f from' symbol to'
  | Validate =>
    show FSM.keeps f.Validate.2 f
    rw [Validate_snd]
    exact keeps_refl f
  | Reset => exact keeps_of_sameDefinition (sameDefinition_of_frame f _)
  | Step r pos =>
    show FSM.keeps (f.Step r pos).2 f
    rw [Step_frame]
    exact keeps_of_sameDefinition (sameDefinition_of_frame f _)
  | Run seq =>
    show FSM.keeps (f.Run seq).2 f
    rw [Run_frame]
    exact keeps_of_sameDefinition (sameDefinition_of_frame f _)
  | Process input =>
    show FSM.keeps (f.Run _).2 f
    rw [Run_frame]
    exact keeps_of_sameDefinition (sameDefinition_of_frame f _)

theorem calls_keeps (ops : List Op) (f : FSM) : FSM.keeps (f.calls ops) f := by
  induction ops generalizing f with
  | nil => exact keeps_refl f
  | cons op ops ih =>
    show FSM.keeps ((f.call op).calls ops) f
    exact keeps_trans (ih (f.call op)) (call_keeps f op)

end fsm

/-- C4 (amended): once `AddTransition(from, symbol, to)` has succeeded, then after
any further calls of the public operations every `AddTransition(from, symbol, to2)`
fails; it fails with `ErrDupTransition` for every target `to2` that is in `states`,
equal to `to` or not, and with the undefined to-state error when `to2` is not in
`states`. -/
theorem C4_duplicate_rejected (f : FSM) (from' : State) (symbol : Int) (to' to2 : State)
    (ops : List Op) (hok : (f.AddTransition from' symbol to').1 = none) :
    (∃ e, (((f.AddTransition from' symbol to').2.calls ops).AddTransition from' symbol to2).1
      = some e) ∧
    (GoMap.has ((f.AddTransition from' symbol to').2.calls ops).states to2 = true →
      (((f.AddTransition from' symbol to').2.calls ops).AddTransition from' symbol to2).1
        = some (Err.ErrDupTransition from' symbol)) ∧
    (GoMap.has ((f.AddTransition from' symbol to').2.calls ops).states to2 = false →
      (((f.AddTransition from' symbol to').2.calls ops).AddTransition from' symbol to2).1
        = some (Err.toStateNotDefined to2)) := by
  obtain ⟨h1, _, h3, _⟩ := (AddTransition_fst_eq_none_iff f from' symbol to').1 hok
  have hl : (f.AddTransition from' symbol to').2.transLookup from' symbol = some to' := by
    rw [AddTransition_lookup f from' symbol to' hok]
    simp
  have hk := keeps_trans (calls_keeps ops (f.AddTransition from' symbol to').2)
    (AddTransition_keeps f from' symbol to')
  have hk2 := calls_keeps ops (f.AddTransition from' symbol to').2
  generalize (f.AddTransition from' symbol to').2.calls ops = g at hk hk2 ⊢
  have g1 := hk.1 from' h1
  have g3 := hk.2.1 symbol h3
  have g4 := hk2.2.2 from' symbol to' hl
  have hdup : GoMap.has g.states to2 = true →
      (g.AddTransition from' symbol to2).1 = some (Err.ErrDupTransition from' symbol) := by
    intro g2
    rw [AddTransition_eq]
    simp [g1, g2, g3, g4]
  have hund : GoMap.has g.states to2 = false →
      (g.AddTransition from' symbol to2).1 = some (Err.toStateNotDefined to2) := by
    intro g2
    rw [AddTransition_eq]
    simp [g1, g2]
  refine ⟨?_, hdup, hund⟩
  cases g2 : GoMap.has g.states to2 with
  | true => exact ⟨_, hdup g2⟩
  | false => exact ⟨_, hund g2⟩

/-- Witness of C4: after `A -'0'-> B` is registered, a run and the addition of a
state `C`, registering `A -'0'-> C` is rejected as a duplicate. -/
theorem C4_duplicate_rejected_witness :
    (testDeterminism.AddTransition "A" 48 "B").1 = none ∧
    ((testDeterminism.AddTransition "A" 48 "B").2.calls
        [Op.Run [48], Op.AddState "C" true]).AddTransition "A" 48 "C"
      = (some (Err.ErrDupTransition "A" 48),
          (testDeterminism.AddTransition "A" 48 "B").2.calls
            [Op.Run [48], Op.AddState "C" true]) :=
  ⟨by decide,
    Prod.ext
      ((C4_duplicate_rejected testDeterminism "A" 48 "B" "C"
        [Op.Run [48], Op.AddState "C" true] (by decide)).2.1 (by decide))
      (by decide)⟩

/-- C4 as stated fails: after `A -'0'-> B` is registered, `AddTransition(A, '0', Z)`
with `Z` outside `states` fails with the undefined to-state error, which is not
`ErrDupTransition`. -/
theorem C4_counterexample :
    (testDeterminism.AddTransition "A" 48 "B").1 = none ∧
    ((testDeterminism.AddTransition "A" 48 "B").2.AddTransition "A" 48 "Z").1
      = some (Err.toStateNotDefined "Z") ∧
    Err.toStateNotDefined "Z" ≠ Err.ErrDupTransition "A" 48 := by
  decide

/-! ## Trimming and `Process` -/

namespace fsm

theorem rdropWhile_append_rtakeWhile {α : Type} (p : α → Bool) (l : List α) :
    l.rdropWhile p ++ l.rtakeWhile p = l := by
  have h : (l.reverse.takeWhile p ++ l.reverse.dropWhile p).reverse = l := by
    rw [List.takeWhile_append_dropWhile, List.reverse_reverse]
  rw [List.reverse_append] at h
  exact h

theorem dropWhile_eq_self_of_head {α : Type} (p : α → Bool) (l : List α)
    (h : ∀ c, l.head? = some c → p c = false) : l.dropWhile p = l := by
  cases l with
  | nil => rfl
  | cons c l =>
    have hc : p c = false := h c rfl
    simp [List.dropWhile, hc]

theorem head_trim {α : Type} (p : α → Bool) (l : List α) (c : α)
    (h : ((l.dropWhile p).rdropWhile p).head? = some c) : p c = false := by
  have hd := List.head?_dropWhile_not p l
  have happ := rdropWhile_append_rtakeWhile p (l.dropWhile p)
  cases ht : (l.dropWhile p).rdropWhile p with
  | nil => simp [ht] at h
  | cons x t =>
    rw [ht] at h happ
    simp only [List.head?_cons, Option.some.injEq] at h
    subst h
    rw [← happ] at hd
    simpa using hd

theorem last_trim {α : Type} (p : α → Bool) (l : List α) (c : α)
    (h : (l.rdropWhile p).getLast? = some c) : p c = false := by
  have hne : l.rdropWhile p ≠ [] := by
    intro e
    simp [e] at h
  have hl := List.rdropWhile_last_not p l hne
  rw [List.getLast?_eq_getLast _ hne] at h
  simp only [Option.some.injEq] at h
  rw [h] at hl
  simpa using hl

theorem trim_idempotent {α : Type} (p : α → Bool) (l : List α) :
    ((((l.dropWhile p).rdropWhile p).dropWhile p).rdropWhile p) =
      (l.dropWhile p).rdropWhile p := by
  rw [dropWhile_eq_self_of_head p _ (head_trim p l), List.rdropWhile_idempotent]

theorem TrimSpace_idempotent (s : String) : TrimSpace (TrimSpace s) = TrimSpace s := by
  simp only [TrimSpace, trim_idempotent]

theorem TrimSpace_decompose (s : String) :
    ∃ lead trail : List Char, s.data = lead ++ (TrimSpace s).data ++ trail ∧
      (∀ c ∈ lead, IsSpace c = true) ∧ (∀ c ∈ trail, IsSpace c = true) := by
  refine ⟨s.data.takeWhile IsSpace, (s.data.dropWhile IsSpace).rtakeWhile IsSpace, ?_, ?_, ?_⟩
  · simp only [TrimSpace, List.append_assoc]
    rw [rdropWhile_append_rtakeWhile, List.takeWhile_append_dropWhile]
  · intro c hc
    exact List.mem_takeWhile_imp hc
  · intro c hc
    exact List.mem_rtakeWhile_imp hc

theorem runes_append_cons (pre post : List Char) (c : Char) :
    runes ⟨pre ++ c :: post⟩ =
      pre.map (fun x => (x.toNat : Int)) ++ (c.toNat : Int) :: post.map (fun x => (x.toNat : Int)) := by
  simp [runes]

end fsm

/-- C8: `Process input` is `Run` on the runes, in order, of `input` without its
leading and trailing white space: the trimmed text sits inside `input` between a
run of white space and a run of white space, and neither begins nor ends with
white space.  Nothing inside the trimmed text is removed: on an automaton that
validates and whose alphabet lacks the space character, a space at index
`pre.length` of the trimmed text, after a part `pre` that is consumed
successfully, makes `Process` fail with `ErrInvalidSymbol` at that position. -/
theorem C8_process_trims_then_runs (f : FSM) (input : String) :
    f.Process input = f.Run (runes (TrimSpace input)) ∧
    (∃ lead trail : List Char, input.data = lead ++ (TrimSpace input).data ++ trail ∧
      (∀ c ∈ lead, IsSpace c = true) ∧ (∀ c ∈ trail, IsSpace c = true)) ∧
    (∀ c, (TrimSpace input).data.head? = some c → IsSpace c = false) ∧
    (∀ c, (TrimSpace input).data.getLast? = some c → IsSpace c = false) ∧
    (∀ (pre post : List Char) (q : State),
      f.Validate.1 = none → GoMap.has f.alphabet (' '.toNat : Int) = false →
      (TrimSpace input).data = pre ++ ' ' :: post →
      f.deltaFold f.start (pre.map (fun c => (c.toNat : Int))) = some q →
      f.Process input =
        (("", some (Err.ErrInvalidSymbol (' '.toNat : Int) (pre.length : Int))),
          { f with current := q })) := by
  refine ⟨rfl, TrimSpace_decompose input, ?_, ?_, ?_⟩
  · intro c hc
    exact head_trim IsSpace input.data c hc
  · intro c hc
    exact last_trim IsSpace (input.data.dropWhile IsSpace) c hc
  · intro pre post q hv hsp ht hpre
    have hr : runes (TrimSpace input) =
        pre.map (fun x => (x.toNat : Int)) ++ (' '.toNat : Int)
          :: post.map (fun x => (x.toNat : Int)) := by
      rw [← runes_append_cons, ← ht]
    unfold FSM.Process
    rw [hr, Run_invalid_at f _ _ _ q hv hpre hsp]
    simp

/-- Witness of C8: `Process("0 0")` on the one-state automaton over `'0'` fails with
`ErrInvalidSymbol` for the space at position 1. -/
theorem C8_process_trims_then_runs_witness :
    testLoop.Process "0 0" =
      (("", some (Err.ErrInvalidSymbol 32 1)), { testLoop with current := "S" }) :=
  (C8_process_trims_then_runs testLoop "0 0").2.2.2.2 ['0'] ['0'] "S"
    (by decide) (by decide) (by decide) (by decide)

/-! ## The remainder machine -/

namespace modthree

theorem BuildModThree_validates : BuildModThree.Validate.1 = none := by decide

theorem delta_zero : ∀ k, k < 3 →
    BuildModThree.delta (stateOf k) ('0'.toNat : Int) = some (stateOf ((2 * k) % 3)) := by
  decide

theorem delta_one : ∀ k, k < 3 →
    BuildModThree.delta (stateOf k) ('1'.toNat : Int) = some (stateOf ((2 * k + 1) % 3)) := by
  decide

theorem deltaFold_binary (cs : List Char) (hcs : ∀ c ∈ cs, c = '0' ∨ c = '1') (n : Nat) :
    BuildModThree.deltaFold (stateOf (n % 3)) (cs.map (fun c => (c.toNat : Int))) =
      some (stateOf (binaryFrom n cs % 3)) := by
  induction cs generalizing n with
  | nil => rfl
  | cons c cs ih =>
    have hrest : ∀ x ∈ cs, x = '0' ∨ x = '1' := fun x hx => hcs x (List.mem_cons_of_mem c hx)
    have hlt : n % 3 < 3 := Nat.mod_lt n (by decide)
    rcases hcs c (List.mem_cons_self c cs) with h | h
    · subst h
      have e : (2 * (n % 3)) % 3 = (2 * n + 0) % 3 := by omega
      simp only [List.map_cons, FSM.deltaFold, delta_zero (n % 3) hlt, e]
      exact ih hrest (2 * n + 0)
    · subst h
      have e : (2 * (n % 3) + 1) % 3 = (2 * n + 1) % 3 := by omega
      simp only [List.map_cons, FSM.deltaFold, delta_one (n % 3) hlt, e]
      exact ih hrest (2 * n + 1)

theorem switch_stateOf : ∀ r, r < 3 →
    (if stateOf r = S0 then ((0 : Int), (none : Option Err))
      else if stateOf r = S1 then (1, none)
      else if stateOf r = S2 then (2, none)
      else (-1, some (Err.unknownFinalState (stateOf r)))) = ((r : Int), none) := by
  decide

end modthree

/-- C1: for every input whose trimmed form consists of the characters `'0'` and
`'1'` only (the empty string included), `ModThree` returns the remainder modulo 3
of the number the trimmed form denotes in binary, most significant bit first,
and no error. -/
theorem C1_modthree_remainder (input : String)
    (h : ∀ c ∈ (TrimSpace input).data, c = '0' ∨ c = '1') :
    ModThree input = (((binaryValue (TrimSpace input).data % 3 : Nat) : Int), none) := by
  have hfold := deltaFold_binary (TrimSpace input).data h 0
  have hrun : BuildModThree.Run (runes (TrimSpace input)) =
      ((stateOf (binaryValue (TrimSpace input).data % 3), none),
        { BuildModThree with current := stateOf (binaryValue (TrimSpace input).data % 3) }) := by
    rw [Run_of_ok _ _ BuildModThree_validates]
    exact runLoop_of_fold_some _ BuildModThree.Reset 0 _ hfold
  have hlt : binaryValue (TrimSpace input).data % 3 < 3 := Nat.mod_lt _ (by decide)
  unfold ModThree FSM.Process
  simp only [TrimSpace_idempotent, hrun]
  exact switch_stateOf _ hlt

/-- Witness of C1: `ModThree("   1110   ")` is 2, the remainder of 14. -/
theorem C1_modthree_remainder_witness : ModThree "   1110   " = (2, none) :=
  C1_modthree_remainder "   1110   " (by decide)

/-! ## Independence of runs, failed calls, reset -/

namespace fsm

theorem Validate_congr (g f : FSM) (hs : g.states = f.states) (ha : g.alphabet = f.alphabet)
    (hst : g.start = f.start) : g.Validate.1 = f.Validate.1 := by
  unfold FSM.Validate
  rw [hs, ha, hst]
  split_ifs <;> rfl

theorem Step_no_transition (f : FSM) (r pos : Int) (h : GoMap.has f.alphabet r = true)
    (hl : f.transLookup f.current r = none) :
    f.Step r pos = (some (Err.ErrNoTransition f.current r pos), f) := by
  simp [FSM.Step, h, hl]

theorem Step_ok (f : FSM) (r pos : Int) (next : State) (h : GoMap.has f.alphabet r = true)
    (hl : f.transLookup f.current r = some next) :
    f.Step r pos = (none, { f with current := next }) := by
  simp [FSM.Step, h, hl]

theorem Step_agree (g f : FSM) (h : FSM.agree g f) (r pos : Int) :
    (g.Step r pos).1 = (f.Step r pos).1 ∧ FSM.agree (g.Step r pos).2 (f.Step r pos).2 := by
  obtain ⟨ha, hl, hc⟩ := h
  cases hr : GoMap.has f.alphabet r with
  | true =>
    have hr2 : GoMap.has g.alphabet r = true := by rw [ha]; exact hr
    have hlk : g.transLookup g.current r = f.transLookup f.current r := by rw [hc, hl]
    cases hf : f.transLookup f.current r with
    | none =>
      rw [Step_no_transition f r pos hr hf, Step_no_transition g r pos hr2 (hlk.trans hf), hc]
      exact ⟨rfl, ha, hl, hc⟩
    | some next =>
      rw [Step_ok f r pos next hr hf, Step_ok g r pos next hr2 (hlk.trans hf)]
      exact ⟨rfl, ha, hl, rfl⟩
  | false =>
    have hr2 : GoMap.has g.alphabet r = false := by rw [ha]; exact hr
    rw [Step_invalid f r pos hr, Step_invalid g r pos hr2]
    exact ⟨rfl, ha, hl, hc⟩

theorem runLoop_agree (seq : List Int) (g f : FSM) (h : FSM.agree g f) (i : Nat) :
    (g.runLoop seq i).1 = (f.runLoop seq i).1 ∧
      (g.runLoop seq i).2.current = (f.runLoop seq i).2.current := by
  induction seq generalizing g f i with
  | nil => exact ⟨by simp [FSM.runLoop, h.2.2], h.2.2⟩
  | cons r rest ih =>
    obtain ⟨h1, h2⟩ := Step_agree g f h r i
    rcases hg : g.Step r i with ⟨eg, g1⟩
    rcases hf : f.Step r i with ⟨ef, f1⟩
    rw [hg, hf] at h1 h2
    simp only at h1 h2
    subst h1
    cases eg with
    | none =>
      simp only [FSM.runLoop, hg, hf]
      exact ih g1 f1 h2 (i + 1)
    | some e =>
      simp only [FSM.runLoop, hg, hf]
      exact ⟨trivial, h2.2.2⟩

theorem call_start (f : FSM) (op : Op) : (f.call op).start = f.start := by
  cases op with
  | AddState st isFinal =>
    show (f.AddState st isFinal).start = f.start
    unfold FSM.AddState
    cases isFinal <;> simp only [] <;> split_ifs <;> rfl
  | AddSymbol r => rfl
  | AddTransition from' symbol to' =>
    show (f.AddTransition from' symbol to').2.start = f.start
    rw [AddTransition_eq]
    split_ifs <;> rfl
  | Validate =>
    show f.Validate.2.start = f.start
    rw [Validate_snd]
  | Reset => rfl
  | Step r pos =>
    show (f.Step r pos).2.start = f.start
    rw [Step_frame]
  | Run seq =>
    show (f.Run seq).2.start = f.start
    rw [Run_frame]
  | Process input =>
    show (f.Run _).2.start = f.start
    rw [Run_frame]

theorem calls_start (ops : List Op) (f : FSM) : (f.calls ops).start = f.start := by
  induction ops generalizing f with
  | nil => rfl
  | cons op ops ih =>
    show ((f.call op).calls ops).start = f.start
    rw [ih (f.call op), call_start]

end fsm

/-- C11: two automata with the same states, alphabet, finals, start and transition
lookups, whatever their `current` states are, give the same result of `Run seq`
(the same state, or the same error with the same symbol and position) for every
`seq`; after a run that passed validation their cursors agree too. -/
theorem C11_runs_independent (g f : FSM) (seq : List Int) (h : FSM.sameDefinition g f) :
    (g.Run seq).1 = (f.Run seq).1 ∧
    (f.Validate.1 = none → (g.Run seq).2.current = (f.Run seq).2.current) := by
  obtain ⟨hs, ha, _, hst, hl⟩ := h
  have hv := Validate_congr g f hs ha hst
  cases hf : f.Validate.1 with
  | some e =>
    rw [Run_of_fail f seq e hf, Run_of_fail g seq e (hv.trans hf)]
    exact ⟨rfl, fun x => by simp at x⟩
  | none =>
    rw [Run_of_ok f seq hf, Run_of_ok g seq (hv.trans hf)]
    have hag : FSM.agree g.Reset f.Reset := ⟨ha, hl, hst⟩
    exact ⟨(runLoop_agree seq g.Reset f.Reset hag 0).1,
      fun _ => (runLoop_agree seq g.Reset f.Reset hag 0).2⟩

/-- Witness of C11: `A -'0'-> B` fresh and the same automaton left at `B` give the
same result on `['0', '1']`, the error for `'1'` at position 1. -/
theorem C11_runs_independent_witness :
    (FSM.Run { testAB with current := "B" } [48, 49]).1 = (testAB.Run [48, 49]).1 ∧
    (testAB.Run [48, 49]).1 = ("", some (Err.ErrInvalidSymbol 49 1)) :=
  ⟨(C11_runs_independent { testAB with current := "B" } testAB [48, 49]
      ⟨rfl, rfl, rfl, rfl, fun _ _ => rfl⟩).1, by decide⟩

/-- C12: a failed `AddTransition`, whatever the reason, returns the automaton as it
was: states, alphabet, finals, start, current and every transition lookup are the
same after the call as before it. -/
theorem C12_failed_add_registers_nothing (f : FSM) (from' : State) (symbol : Int) (to' : State)
    (e : Err) (h : (f.AddTransition from' symbol to').1 = some e) :
    (f.AddTransition from' symbol to').2 = f ∧
    FSM.sameDefinition (f.AddTransition from' symbol to').2 f ∧
    (f.AddTransition from' symbol to').2.current = f.current := by
  rw [AddTransition_snd_of_fail f from' symbol to' e h]
  exact ⟨rfl, ⟨rfl, rfl, rfl, rfl, fun _ _ => rfl⟩, rfl⟩

/-- Witness of C12: the duplicate registration of `A -'0'-> B` fails and leaves the
automaton as it was. -/
theorem C12_failed_add_registers_nothing_witness :
    (testAB.AddTransition "A" 48 "B").1 = some (Err.ErrDupTransition "A" 48) ∧
    (testAB.AddTransition "A" 48 "B").2 = testAB :=
  ⟨by decide,
    (C12_failed_add_registers_nothing testAB "A" 48 "B" (Err.ErrDupTransition "A" 48)
      (by decide)).1⟩

/-- C15: when `Validate` fails, `Run` on any sequence and `Process` on any text
return that validation error and the automaton as it was, `current` included. -/
theorem C15_validation_error_propagates (f : FSM) (seq : List Int) (input : String) (e : Err)
    (h : f.Validate.1 = some e) :
    f.Run seq = (("", some e), f) ∧ f.Process input = (("", some e), f) ∧
    (f.Run seq).2.current = f.current ∧ (f.Process input).2.current = f.current := by
  have hr := Run_of_fail f seq e h
  have hp : f.Process input = (("", some e), f) := Run_of_fail f _ e h
  rw [hr, hp]
  exact ⟨rfl, rfl, rfl, rfl⟩

/-- Witness of C15: the automaton without symbols, with the cursor at `B`, returns
`ErrEmptyAlphabet` from `Run` and `Process` and keeps the cursor at `B`. -/
theorem C15_validation_error_propagates_witness :
    FSM.Run { testNoSymbol with current := "B" } [48] =
      (("", some Err.ErrEmptyAlphabet), { testNoSymbol with current := "B" }) ∧
    FSM.Process { testNoSymbol with current := "B" } "0" =
      (("", some Err.ErrEmptyAlphabet), { testNoSymbol with current := "B" }) :=
  ⟨(C15_validation_error_propagates { testNoSymbol with current := "B" } [48] "0"
      Err.ErrEmptyAlphabet (by decide)).1,
    (C15_validation_error_propagates { testNoSymbol with current := "B" } [48] "0"
      Err.ErrEmptyAlphabet (by decide)).2.1⟩

/-- C17: after any sequence of calls of the public operations, successful or
failed, `Reset` followed by `Current` yields `start`, which is the start state the
automaton had from the beginning; `Reset` twice is `Reset` once. -/
theorem C17_reset_idempotent (f : FSM) (ops : List Op) :
    (f.calls ops).Reset.Current = (f.calls ops).start ∧
    (f.calls ops).start = f.start ∧
    (f.calls ops).Reset.Reset = (f.calls ops).Reset :=
  ⟨rfl, calls_start ops f, rfl⟩

/-! ## `AddState` -/

namespace GoMap

variable {K V : Type} [DecidableEq K]

theorem has_set_iff (m : GoMap K V) (k x : K) (v : V) :
    has (set m k v) x = true ↔ (has m x = true ∨ x = k) := by
  by_cases h : k = x
  · subst h
    simp [has_set_self]
  · rw [has_set_ne m v h]
    constructor
    · exact fun hx => Or.inl hx
    · rintro (hx | hx)
      · exact hx
      · exact absurd hx.symm h

end GoMap

namespace fsm

/-- The body of `AddState` as one record update. -/
theorem AddState_eq (f : FSM) (s : State) (isFinal : Bool) :
    f.AddState s isFinal =
      { f with
        states := GoMap.set f.states s ()
        finals := if isFinal then GoMap.set f.finals s () else f.finals
        trans := if GoMap.has f.trans s then f.trans else GoMap.set f.trans s [] } := by
  unfold FSM.AddState
  cases isFinal <;> by_cases h : GoMap.has f.trans s = true <;> simp [h]

theorem AddState_idempotent (f : FSM) (s : State) (isFinal : Bool) :
    (f.AddState s isFinal).AddState s isFinal = f.AddState s isFinal := by
  have hs : GoMap.set (GoMap.set f.states s ()) s () = GoMap.set f.states s () :=
    GoMap.set_set f.states s () ()
  have hf : GoMap.set (GoMap.set f.finals s ()) s () = GoMap.set f.finals s () :=
    GoMap.set_set f.finals s () ()
  have ht : GoMap.has (GoMap.set f.trans s []) s = true := GoMap.has_set_self _ _ _
  rw [AddState_eq (f.AddState s isFinal), AddState_eq f]
  cases isFinal <;> by_cases h : GoMap.has f.trans s = true <;> simp [h, hs, hf, ht]

end fsm

/-- C14: `AddState(s, isFinal)` is total (it has no error result); afterwards the
states are the old states and `s`, a state is final iff it was final before or it
is `s` and `isFinal` is true, and the alphabet, `start`, `current` and every
transition lookup are unchanged.  Two calls with the same arguments give the
automaton that one call gives. -/
theorem C14_add_state (f : FSM) (s : State) (isFinal : Bool) :
    (∀ x, GoMap.has (f.AddState s isFinal).states x = true ↔
      (GoMap.has f.states x = true ∨ x = s)) ∧
    (∀ x, (f.AddState s isFinal).IsFinal x = true ↔
      (f.IsFinal x = true ∨ (x = s ∧ isFinal = true))) ∧
    (f.AddState s isFinal).alphabet = f.alphabet ∧
    (f.AddState s isFinal).start = f.start ∧
    (f.AddState s isFinal).current = f.current ∧
    (∀ q a, (f.AddState s isFinal).transLookup q a = f.transLookup q a) ∧
    (f.AddState s isFinal).AddState s isFinal = f.AddState s isFinal := by
  refine ⟨?_, ?_, ?_, ?_, ?_, AddState_transLookup f s isFinal, AddState_idempotent f s isFinal⟩
  · intro x
    rw [AddState_eq]
    exact GoMap.has_set_iff f.states s x ()
  · intro x
    rw [AddState_eq]
    cases isFinal with
    | false => simp [FSM.IsFinal]
    | true =>
      simp only [FSM.IsFinal, if_true, and_true]
      exact GoMap.has_set_iff f.finals s x ()
  · rw [AddState_eq]
  · rw [AddState_eq]
  · rw [AddState_eq]

/-- Witness of C14: on `A -'0'-> B` (with `B` final), `AddState(B, false)` leaves
`B` final and keeps the transition out of `A` into `B`. -/
theorem C14_add_state_witness :
    (testAB.AddState "B" false).IsFinal "B" = true ∧
    (testAB.AddState "B" false).transLookup "A" 48 = some "B" ∧
    (testAB.AddState "B" false).AddState "B" false = testAB.AddState "B" false :=
  ⟨((C14_add_state testAB "B" false).2.1 "B").2 (Or.inl (by decide)),
    ((C14_add_state testAB "B" false).2.2.2.2.2.1 "A" 48).trans (by decide),
    (C14_add_state testAB "B" false).2.2.2.2.2.2⟩

/-! ## The structural invariant is kept by every call -/

namespace fsm

theorem NewFSM_wellFormed (start : State) : (NewFSM start).wellFormed := by
  refine ⟨GoMap.has_set_self _ _ _, GoMap.has_set_self _ _ _, ?_, ?_⟩
  · intro s h
    simp [NewFSM, GoMap.has, GoMap.get?] at h
  · intro q s t h
    simp [NewFSM, FSM.transLookup, GoMap.get?] at h

theorem wellFormed_set_current (f : FSM) (c : State) (h : f.wellFormed)
    (hc : GoMap.has f.states c = true) : FSM.wellFormed { f with current := c } :=
  ⟨h.1, hc, h.2.2.1, h.2.2.2⟩

theorem AddState_wellFormed (f : FSM) (st : State) (isFinal : Bool) (h : f.wellFormed) :
    (f.AddState st isFinal).wellFormed := by
  obtain ⟨h1, h2, h3, h4⟩ := h
  have hs : ∀ x, GoMap.has f.states x = true →
      GoMap.has (f.AddState st isFinal).states x = true := by
    intro x hx
    rw [AddState_states]
    exact GoMap.has_set_of_has _ _ _ _ hx
  have hst : GoMap.has (f.AddState st isFinal).states st = true := by
    rw [AddState_states]
    exact GoMap.has_set_self _ _ _
  refine ⟨?_, ?_, ?_, ?_⟩
  · have e : (f.AddState st isFinal).start = f.start := by rw [AddState_eq]
    rw [e]
    exact hs _ h1
  · have e : (f.AddState st isFinal).current = f.current := by rw [AddState_eq]
    rw [e]
    exact hs _ h2
  · intro s hfin
    have e : (f.AddState st isFinal).finals =
        if isFinal then GoMap.set f.finals st () else f.finals := by rw [AddState_eq]
    rw [e] at hfin
    cases isFinal with
    | false => exact hs s (h3 s hfin)
    | true =>
      rcases (GoMap.has_set_iff f.finals st s ()).1 hfin with hx | hx
      · exact hs s (h3 s hx)
      · rw [hx]
        exact hst
  · intro q s t hl
    rw [AddState_transLookup] at hl
    obtain ⟨a, b, c⟩ := h4 q s t hl
    rw [AddState_alphabet]
    exact ⟨hs q a, hs t b, c⟩

theorem AddSymbol_wellFormed (f : FSM) (r : Int) (h : f.wellFormed) :
    (f.AddSymbol r).wellFormed := by
  obtain ⟨h1, h2, h3, h4⟩ := h
  refine ⟨h1, h2, h3, ?_⟩
  intro q s t hl
  obtain ⟨a, b, c⟩ := h4 q s t hl
  exact ⟨a, b, GoMap.has_set_of_has _ _ _ _ c⟩

theorem AddTransition_frame (f : FSM) (from' : State) (symbol : Int) (to' : State) :
    (f.AddTransition from' symbol to').2 =
      { f with trans := (f.AddTransition from' symbol to').2.trans } := by
  rw [AddTransition_eq]
  split_ifs <;> rfl

theorem AddTransition_wellFormed (f : FSM) (from' : State) (symbol : Int) (to' : State)
    (h : f.wellFormed) : (f.AddTransition from' symbol to').2.wellFormed := by
  cases hr : (f.AddTransition from' symbol to').1 with
  | some e =>
    rw [AddTransition_snd_of_fail f from' symbol to' e hr]
    exact h
  | none =>
    obtain ⟨h1, h2, h3, h4⟩ := h
    obtain ⟨a1, a2, a3, _⟩ := (AddTransition_fst_eq_none_iff f from' symbol to').1 hr
    have hl := AddTransition_lookup f from' symbol to' hr
    rw [AddTransition_frame] at hl ⊢
    refine ⟨h1, h2, h3, ?_⟩
    intro q s t hq
    rw [hl q s] at hq
    by_cases hc : q = from' ∧ s = symbol
    · simp only [hc, and_self, if_true, Option.some.injEq] at hq
      obtain ⟨rfl, rfl⟩ := hc
      subst hq
      exact ⟨a1, a2, a3⟩
    · simp only [hc, if_false] at hq
      exact h4 q s t hq

theorem Step_wellFormed (f : FSM) (r pos : Int) (h : f.wellFormed) :
    (f.Step r pos).2.wellFormed := by
  cases hr : GoMap.has f.alphabet r with
  | false =>
    rw [Step_invalid f r pos hr]
    exact h
  | true =>
    cases hl : f.transLookup f.current r with
    | none =>
      rw [Step_no_transition f r pos hr hl]
      exact h
    | some next =>
      rw [Step_ok f r pos next hr hl]
      exact wellFormed_set_current f next h (h.2.2.2 _ _ _ hl).2.1

theorem runLoop_wellFormed (seq : List Int) (f : FSM) (i : Nat) (h : f.wellFormed) :
    (f.runLoop seq i).2.wellFormed := by
  induction seq generalizing f i with
  | nil => exact h
  | cons r rest ih =>
    have hs := Step_wellFormed f r i h
    rcases hstep : f.Step r i with ⟨_ | e, f1⟩
    · rw [hstep] at hs
      simp only [FSM.runLoop, hstep]
      exact ih f1 (i + 1) hs
    · rw [hstep] at hs
      simp only [FSM.runLoop, hstep]
      exact hs

theorem Run_wellFormed (f : FSM) (seq : List Int) (h : f.wellFormed) :
    (f.Run seq).2.wellFormed := by
  cases hv : f.Validate.1 with
  | none =>
    rw [Run_of_ok f seq hv]
    exact runLoop_wellFormed seq f.Reset 0 (wellFormed_set_current f f.start h h.1)
  | some e =>
    rw [Run_of_fail f seq e hv]
    exact h

theorem call_wellFormed (f : FSM) (op : Op) (h : f.wellFormed) : (f.call op).wellFormed := by
  cases op with
  | AddState st isFinal => exact AddState_wellFormed f st isFinal h
  | AddSymbol r => exact AddSymbol_wellFormed f r h
  | AddTransition from' symbol to' => exact AddTransition_wellFormed f from' symbol to' h
  | Validate =>
    show f.Validate.2.wellFormed
    rw [Validate_snd]
    exact h
  | Reset => exact wellFormed_set_current f f.start h h.1
  | Step r pos => exact Step_wellFormed f r pos h
  | Run seq => exact Run_wellFormed f seq h
  | Process input => exact Run_wellFormed f _ h

theorem calls_wellFormed (ops : List Op) (f : FSM) (h : f.wellFormed) :
    (f.calls ops).wellFormed := by
  induction ops generalizing f with
  | nil => exact h
  | cons op ops ih => exact ih (f.call op) (call_wellFormed f op h)

end fsm

/-- C13: every automaton reached from `NewFSM(start)` by any sequence of `AddState`,
`AddSymbol`, `AddTransition`, `Validate`, `Reset`, `Step`, `Run` and `Process`
calls, successful or failed, has `start` in `states`, `current` in `states`, every
final state in `states`, and every registered transition with its source and
target in `states` and its symbol in the alphabet. -/
theorem C13_structural_invariant (start : State) (ops : List Op) :
    GoMap.has ((NewFSM start).calls ops).states ((NewFSM start).calls ops).start = true ∧
    GoMap.has ((NewFSM start).calls ops).states ((NewFSM start).calls ops).current = true ∧
    (∀ s, GoMap.has ((NewFSM start).calls ops).finals s = true →
      GoMap.has ((NewFSM start).calls ops).states s = true) ∧
    (∀ q s t, ((NewFSM start).calls ops).transLookup q s = some t →
      GoMap.has ((NewFSM start).calls ops).states q = true ∧
      GoMap.has ((NewFSM start).calls ops).states t = true ∧
      GoMap.has ((NewFSM start).calls ops).alphabet s = true) :=
  calls_wellFormed ops (NewFSM start) (NewFSM_wellFormed start)

/-- Witness of C13: after building `A -'0'-> B` from `NewFSM("A")` and a run, the
registered transition has both ends in `states` and its symbol in the alphabet. -/
theorem C13_structural_invariant_witness :
    GoMap.has ((NewFSM "A").calls [Op.AddState "B" true, Op.AddSymbol 48,
      Op.AddTransition "A" 48 "B", Op.Run [48]]).states "A" = true ∧
    GoMap.has ((NewFSM "A").calls [Op.AddState "B" true, Op.AddSymbol 48,
      Op.AddTransition "A" 48 "B", Op.Run [48]]).states "B" = true ∧
    GoMap.has ((NewFSM "A").calls [Op.AddState "B" true, Op.AddSymbol 48,
      Op.AddTransition "A" 48 "B", Op.Run [48]]).alphabet 48 = true :=
  (C13_structural_invariant "A" [Op.AddState "B" true, Op.AddSymbol 48,
    Op.AddTransition "A" 48 "B", Op.Run [48]]).2.2.2 "A" 48 "B" (by decide)

/-! ## Validation of automata built through the public operations -/

namespace fsm

theorem call_alphabet (f : FSM) (op : Op) :
    (f.call op).alphabet =
      match op with
      | .AddSymbol r => GoMap.set f.alphabet r ()
      | _ => f.alphabet := by
  cases op with
  | AddState st isFinal => exact AddState_alphabet f st isFinal
  | AddSymbol r => rfl
  | AddTransition from' symbol to' => exact AddTransition_alphabet f from' symbol to'
  | Validate =>
    show f.Validate.2.alphabet = f.alphabet
    rw [Validate_snd]
  | Reset => rfl
  | Step r pos =>
    show (f.Step r pos).2.alphabet = f.alphabet
    rw [Step_frame]
  | Run seq =>
    show (f.Run seq).2.alphabet = f.alphabet
    rw [Run_frame]
  | Process input =>
    show (f.Run _).2.alphabet = f.alphabet
    rw [Run_frame]

theorem calls_alphabet_nonempty (ops : List Op) (f : FSM) :
    (∃ a, GoMap.has (f.calls ops).alphabet a = true) ↔
      ((∃ a, GoMap.has f.alphabet a = true) ∨ ∃ r, Op.AddSymbol r ∈ ops) := by
  induction ops generalizing f with
  | nil => simp [FSM.calls]
  | cons op ops ih =>
    have hstep : (f.calls (op :: ops)) = (f.call op).calls ops := rfl
    rw [hstep, ih (f.call op), call_alphabet]
    cases op with
    | AddSymbol r =>
      constructor
      · intro _
        exact Or.inr ⟨r, List.mem_cons_self _ _⟩
      · intro _
        exact Or.inl ⟨r, GoMap.has_set_self _ _ _⟩
    | AddState st isFinal => simp
    | AddTransition from' symbol to' => simp
    | Validate => simp
    | Reset => simp
    | Step r pos => simp
    | Run seq => simp
    | Process input => simp

theorem Validate_of_start_mem (f : FSM) (h : GoMap.has f.states f.start = true) :
    f.Validate.1 = if GoMap.len f.alphabet = 0 then some Err.ErrEmptyAlphabet else none := by
  have h0 : GoMap.len f.states ≠ 0 := (GoMap.len_ne_zero_iff f.states).2 ⟨f.start, h⟩
  unfold FSM.Validate
  split_ifs <;> simp_all

end fsm

/-- C20: on every automaton built from `NewFSM(start)` by any sequence of calls of
the public operations, `Validate` never fails with `ErrNoStates` or
`ErrStartNotInStates`; it succeeds or fails with `ErrEmptyAlphabet`, and it
succeeds iff `AddSymbol` is among the calls made. -/
theorem C20_validate_after_public_build (start : State) (ops : List Op) :
    ((NewFSM start).calls ops).Validate.1 ≠ some Err.ErrNoStates ∧
    ((NewFSM start).calls ops).Validate.1 ≠ some Err.ErrStartNotInStates ∧
    (((NewFSM start).calls ops).Validate.1 = none ∨
      ((NewFSM start).calls ops).Validate.1 = some Err.ErrEmptyAlphabet) ∧
    (((NewFSM start).calls ops).Validate.1 = none ↔ ∃ r, Op.AddSymbol r ∈ ops) := by
  have hwf := calls_wellFormed ops (NewFSM start) (NewFSM_wellFormed start)
  have hv := Validate_of_start_mem _ hwf.1
  have hne := calls_alphabet_nonempty ops (NewFSM start)
  have hempty : ¬ ∃ a, GoMap.has (NewFSM start).alphabet a = true := by
    rintro ⟨a, ha⟩
    simp [NewFSM, GoMap.has, GoMap.get?] at ha
  rw [hv]
  by_cases hl : GoMap.len ((NewFSM start).calls ops).alphabet = 0
  · have hno : ¬ ∃ r, Op.AddSymbol r ∈ ops := by
      intro hex
      obtain ⟨a, ha⟩ := hne.2 (Or.inr hex)
      have := (GoMap.len_eq_zero_iff _).1 hl a
      rw [this] at ha
      exact Bool.false_ne_true ha
    simp [hl, hno]
  · have hyes : ∃ r, Op.AddSymbol r ∈ ops := by
      rcases hne.1 ((GoMap.len_ne_zero_iff _).1 hl) with h | h
      · exact absurd h hempty
      · exact h
    simp [hl, hyes]

/-- Witness of C20 on two builds from `NewFSM("S0")`: with `AddSymbol` among the
calls `Validate` succeeds, without it the result is `ErrEmptyAlphabet`. -/
theorem C20_validate_after_public_build_witness :
    ((NewFSM "S0").calls [Op.AddState "S0" true, Op.AddSymbol 48]).Validate.1 = none ∧
    ((NewFSM "S0").calls [Op.AddState "S0" false]).Validate.1 = some Err.ErrEmptyAlphabet :=
  ⟨(C20_validate_after_public_build "S0" [Op.AddState "S0" true, Op.AddSymbol 48]).2.2.2.2
      ⟨48, by decide⟩,
    ((C20_validate_after_public_build "S0" [Op.AddState "S0" false]).2.2.1).resolve_left
      (by decide)⟩

/-! ## Failing runs keep the cursor where they stopped -/

namespace fsm

theorem Run_fail_at (f : FSM) (pre post : List Int) (x : Int) (q : State)
    (hv : f.Validate.1 = none) (hpre : f.deltaFold f.start pre = some q)
    (hx : f.delta q x = none) :
    f.Run (pre ++ x :: post) =
      (("", some (if GoMap.has f.alphabet x = true then Err.ErrNoTransition q x (pre.length : Int)
          else Err.ErrInvalidSymbol x (pre.length : Int))), { f with current := q }) := by
  cases ha : GoMap.has f.alphabet x with
  | false =>
    rw [Run_invalid_at f pre post x q hv hpre ha]
    simp
  | true =>
    have hl : f.transLookup q x = none := by
      simpa [FSM.delta, ha] using hx
    have hcur : f.Reset.deltaFold f.Reset.current pre = some q :=
      (deltaFold_congr f.Reset f rfl rfl f.start pre).trans hpre
    rw [Run_of_ok f _ hv, runLoop_append pre (x :: post) f.Reset 0 q hcur]
    have hstep := Step_no_transition { f.Reset with current := q } x
      ((0 + pre.length : Nat) : Int) ha hl
    simp only [FSM.runLoop, hstep]
    simp [FSM.Reset]

end fsm

/-- C19: when `Run` on an automaton that validates fails at index `k` (the first
`k` symbols `pre` lead from `start` to `q`, and the symbol `x` at index `k` is
outside the alphabet or has no transition from `q`), the error is
`ErrInvalidSymbol` or `ErrNoTransition` at position `k` and `current` is left at
`q`, not rolled back.  That state may differ both from `start` and from the value
`current` had before the call. -/
theorem C19_no_rollback :
    (∀ (f : FSM) (pre post : List Int) (x : Int) (q : State),
      f.Validate.1 = none → f.deltaFold f.start pre = some q → f.delta q x = none →
      (f.Run (pre ++ x :: post)).2 = { f with current := q } ∧
      (GoMap.has f.alphabet x = false →
        (f.Run (pre ++ x :: post)).1 = ("", some (Err.ErrInvalidSymbol x (pre.length : Int)))) ∧
      (GoMap.has f.alphabet x = true →
        (f.Run (pre ++ x :: post)).1 = ("", some (Err.ErrNoTransition q x (pre.length : Int))))) ∧
    (∃ (f : FSM) (seq : List Int), (f.Run seq).1.2 ≠ none ∧
      (f.Run seq).2.current ≠ f.start ∧ (f.Run seq).2.current ≠ f.current) := by
  constructor
  · intro f pre post x q hv hpre hx
    rw [Run_fail_at f pre post x q hv hpre hx]
    refine ⟨rfl, ?_, ?_⟩
    · intro ha
      simp [ha]
    · intro ha
      simp [ha]
  · exact ⟨testAB, [48, 49], by decide, by decide, by decide⟩

/-- Witness of C19: on `A -'0'-> B`, fresh at `A`, the run over `['0', '0']` fails
at index 1 with `ErrNoTransition` from `B` and leaves the cursor at `B`. -/
theorem C19_no_rollback_witness :
    (testAB.Run ([48] ++ 48 :: [])).2 = { testAB with current := "B" } ∧
    (testAB.Run ([48] ++ 48 :: [])).1 = ("", some (Err.ErrNoTransition "B" 48 1)) :=
  ⟨(C19_no_rollback.1 testAB [48] [] 48 "B" (by decide) (by decide) (by decide)).1,
    (C19_no_rollback.1 testAB [48] [] 48 "B" (by decide) (by decide) (by decide)).2.2
      (by decide)⟩

/-! ## The factory of the remainder machine -/

namespace modthree

theorem BuildModThree_states : BuildModThree.states = [(S0, ()), (S1, ()), (S2, ())] := by
  decide

theorem BuildModThree_finals : BuildModThree.finals = [(S0, ()), (S1, ()), (S2, ())] := by
  decide

theorem BuildModThree_alphabet : BuildModThree.alphabet = [(48, ()), (49, ())] := by
  decide

theorem has_three (s : State) :
    GoMap.has [(S0, ()), (S1, ()), (S2, ())] s = true ↔ (s = S0 ∨ s = S1 ∨ s = S2) := by
  simp only [GoMap.has, GoMap.get?]
  by_cases h0 : S0 = s
  · simp [h0]
  · by_cases h1 : S1 = s
    · simp [h1]
    · by_cases h2 : S2 = s
      · simp [h2]
      · have e0 : ¬ s = S0 := fun e => h0 e.symm
        have e1 : ¬ s = S1 := fun e => h1 e.symm
        have e2 : ¬ s = S2 := fun e => h2 e.symm
        simp [h0, h1, h2, e0, e1, e2]

theorem has_two (a : Int) :
    GoMap.has [((48 : Int), ()), ((49 : Int), ())] a = true ↔ (a = 48 ∨ a = 49) := by
  simp only [GoMap.has, GoMap.get?]
  by_cases h0 : (48 : Int) = a
  · simp [h0]
  · by_cases h1 : (49 : Int) = a
    · simp [h1]
    · have e0 : ¬ a = 48 := fun e => h0 e.symm
      have e1 : ¬ a = 49 := fun e => h1 e.symm
      simp [h0, h1, e0, e1]

end modthree

/-- C18: in `BuildModThree` the six `AddTransition` calls and the `Validate` call
all return no error; the automaton built has start `S0`, states and finals exactly
`S0`, `S1`, `S2`, alphabet exactly `'0'`, `'1'`, and the six transitions
`S0-0->S0`, `S0-1->S1`, `S1-0->S2`, `S1-1->S0`, `S2-0->S1`, `S2-1->S2`, so a
transition is registered for every state and symbol. -/
theorem C18_build_modthree :
    BuildModThreeTrace = ([none, none, none, none, none, none, none], BuildModThree) ∧
    BuildModThree.start = S0 ∧
    (∀ s, GoMap.has BuildModThree.states s = true ↔ (s = S0 ∨ s = S1 ∨ s = S2)) ∧
    (∀ s, GoMap.has BuildModThree.finals s = true ↔ (s = S0 ∨ s = S1 ∨ s = S2)) ∧
    (∀ a, GoMap.has BuildModThree.alphabet a = true ↔
      (a = ('0'.toNat : Int) ∨ a = ('1'.toNat : Int))) ∧
    BuildModThree.transLookup S0 ('0'.toNat : Int) = some S0 ∧
    BuildModThree.transLookup S0 ('1'.toNat : Int) = some S1 ∧
    BuildModThree.transLookup S1 ('0'.toNat : Int) = some S2 ∧
    BuildModThree.transLookup S1 ('1'.toNat : Int) = some S0 ∧
    BuildModThree.transLookup S2 ('0'.toNat : Int) = some S1 ∧
    BuildModThree.transLookup S2 ('1'.toNat : Int) = some S2 ∧
    (∀ q a, GoMap.has BuildModThree.states q = true → GoMap.has BuildModThree.alphabet a = true →
      (BuildModThree.transLookup q a).isSome = true) := by
  refine ⟨by decide, by decide, ?_, ?_, ?_, by decide, by decide, by decide, by decide,
    by decide, by decide, ?_⟩
  · intro s
    rw [BuildModThree_states]
    exact has_three s
  · intro s
    rw [BuildModThree_finals]
    exact has_three s
  · intro a
    rw [BuildModThree_alphabet]
    exact has_two a
  · intro q a hq ha
    rw [BuildModThree_states] at hq
    rw [BuildModThree_alphabet] at ha
    rcases (has_three q).1 hq with rfl | rfl | rfl <;>
      rcases (has_two a).1 ha with rfl | rfl <;> decide

/-- Witness of C18: the state `S2` and the symbol `'1'` are registered, and the
lookup for them hits. -/
theorem C18_build_modthree_witness :
    (BuildModThree.transLookup S2 49).isSome = true :=
  C18_build_modthree.2.2.2.2.2.2.2.2.2.2.2 S2 49 (by decide) (by decide)

/-! ## `ModThree` on text that is not binary -/

namespace modthree

theorem toNat_eq_imp (c : Char) (n : Nat) (h : (c.toNat : Int) = (n : Int)) :
    c = Char.ofNat n := by
  have h2 : c.toNat = n := by exact_mod_cast h
  rw [← h2, Char.ofNat_toNat]

theorem not_in_alphabet (c : Char) (h0 : c ≠ '0') (h1 : c ≠ '1') :
    GoMap.has BuildModThree.alphabet (c.toNat : Int) = false := by
  cases hh : GoMap.has BuildModThree.alphabet (c.toNat : Int) with
  | false => rfl
  | true =>
    rw [BuildModThree_alphabet] at hh
    rcases (has_two _).1 hh with e | e
    · exact absurd (toNat_eq_imp c 48 e) h0
    · exact absurd (toNat_eq_imp c 49 e) h1

theorem first_not_binary (cs : List Char) (h : ∃ c ∈ cs, c ≠ '0' ∧ c ≠ '1') :
    ∃ pre c post, cs = pre ++ c :: post ∧ (∀ x ∈ pre, x = '0' ∨ x = '1') ∧
      c ≠ '0' ∧ c ≠ '1' := by
  induction cs with
  | nil =>
    obtain ⟨c, hc, _⟩ := h
    simp at hc
  | cons d cs ih =>
    by_cases hd : d = '0' ∨ d = '1'
    · have hrest : ∃ c ∈ cs, c ≠ '0' ∧ c ≠ '1' := by
        obtain ⟨c, hc, hne⟩ := h
        rcases List.mem_cons.1 hc with e | e
        · subst e
          rcases hd with e0 | e1
          · exact absurd e0 hne.1
          · exact absurd e1 hne.2
        · exact ⟨c, e, hne⟩
      obtain ⟨pre, c, post, e, hpre, hc⟩ := ih hrest
      refine ⟨d :: pre, c, post, by rw [e]; rfl, ?_, hc⟩
      intro x hx
      rcases List.mem_cons.1 hx with e1 | e1
      · rw [e1]
        exact hd
      · exact hpre x e1
    · refine ⟨[], d, cs, rfl, ?_, ?_, ?_⟩
      · intro x hx
        simp at hx
      · exact fun e => hd (Or.inl e)
      · exact fun e => hd (Or.inr e)

theorem ModThree_of_binary (input : String)
    (h : ∀ c ∈ (TrimSpace input).data, c = '0' ∨ c = '1') :
    ModThree input = (((binaryValue (TrimSpace input).data % 3 : Nat) : Int), none) := by
  have hfold := deltaFold_binary (TrimSpace input).data h 0
  have hrun : BuildModThree.Run (runes (TrimSpace input)) =
      ((stateOf (binaryValue (TrimSpace input).data % 3), none),
        { BuildModThree with current := stateOf (binaryValue (TrimSpace input).data % 3) }) := by
    rw [Run_of_ok _ _ BuildModThree_validates]
    exact runLoop_of_fold_some _ BuildModThree.Reset 0 _ hfold
  have hlt : binaryValue (TrimSpace input).data % 3 < 3 := Nat.mod_lt _ (by decide)
  unfold ModThree FSM.Process
  simp only [TrimSpace_idempotent, hrun]
  exact switch_stateOf _ hlt

theorem ModThree_of_not_binary (input : String) (pre post : List Char) (c : Char)
    (ht : (TrimSpace input).data = pre ++ c :: post) (hpre : ∀ x ∈ pre, x = '0' ∨ x = '1')
    (h0 : c ≠ '0') (h1 : c ≠ '1') :
    ModThree input = (-1, some (Err.invalidBinaryInput
      (Err.ErrInvalidSymbol (c.toNat : Int) (pre.length : Int)))) := by
  have hfold : BuildModThree.deltaFold BuildModThree.start
      (pre.map (fun x => (x.toNat : Int))) = some (stateOf (binaryFrom 0 pre % 3)) :=
    deltaFold_binary pre hpre 0
  have hr : runes (TrimSpace input) =
      pre.map (fun x => (x.toNat : Int)) ++ (c.toNat : Int)
        :: post.map (fun x => (x.toNat : Int)) := by
    rw [← runes_append_cons, ← ht]
  have hrun := Run_invalid_at BuildModThree (pre.map (fun x => (x.toNat : Int)))
    (post.map (fun x => (x.toNat : Int))) (c.toNat : Int) _ BuildModThree_validates hfold
    (not_in_alphabet c h0 h1)
  rw [← hr] at hrun
  unfold ModThree FSM.Process
  simp only [TrimSpace_idempotent, hrun]
  simp

theorem ModThree_cases (input : String) :
    (∃ r : Nat, ModThree input = ((r : Int), none)) ∨
    ∃ (c : Char) (k : Nat), ModThree input =
      (-1, some (Err.invalidBinaryInput (Err.ErrInvalidSymbol (c.toNat : Int) (k : Int)))) := by
  by_cases h : ∀ c ∈ (TrimSpace input).data, c = '0' ∨ c = '1'
  · exact Or.inl ⟨_, ModThree_of_binary input h⟩
  · have hex : ∃ c ∈ (TrimSpace input).data, c ≠ '0' ∧ c ≠ '1' := by
      by_contra hno
      apply h
      intro c hc
      by_contra hcc
      exact hno ⟨c, hc, fun e => hcc (Or.inl e), fun e => hcc (Or.inr e)⟩
    obtain ⟨pre, c, post, e, hpre, h0, h1⟩ := first_not_binary _ hex
    exact Or.inr ⟨c, pre.length, ModThree_of_not_binary input pre post c e hpre h0 h1⟩

end modthree

/-- C16: when the trimmed input has a character other than `'0'` and `'1'`,
`ModThree` returns -1 and an error that wraps `ErrInvalidSymbol` for the first such
character at its index in the trimmed text.  For no input at all does `ModThree`
fail with a wrapped `ErrNoTransition` or with the error of its
unknown-final-state branch. -/
theorem C16_modthree_invalid_input (input : String) :
    ((∃ c ∈ (TrimSpace input).data, c ≠ '0' ∧ c ≠ '1') →
      ∃ pre c post, (TrimSpace input).data = pre ++ c :: post ∧
        (∀ x ∈ pre, x = '0' ∨ x = '1') ∧ c ≠ '0' ∧ c ≠ '1' ∧
        ModThree input = (-1, some (Err.invalidBinaryInput
          (Err.ErrInvalidSymbol (c.toNat : Int) (pre.length : Int))))) ∧
    (∀ cur r pos, (ModThree input).2 ≠
      some (Err.invalidBinaryInput (Err.ErrNoTransition cur r pos))) ∧
    (∀ cur r pos, (ModThree input).2 ≠ some (Err.ErrNoTransition cur r pos)) ∧
    (∀ final, (ModThree input).2 ≠ some (Err.unknownFinalState final)) := by
  refine ⟨?_, ?_, ?_, ?_⟩
  · intro hex
    obtain ⟨pre, c, post, e, hpre, h0, h1⟩ := first_not_binary _ hex
    exact ⟨pre, c, post, e, hpre, h0, h1, ModThree_of_not_binary input pre post c e hpre h0 h1⟩
  · intro cur r pos
    rcases ModThree_cases input with ⟨n, hn⟩ | ⟨c, k, hk⟩
    · simp [hn]
    · simp [hk]
  · intro cur r pos
    rcases ModThree_cases input with ⟨n, hn⟩ | ⟨c, k, hk⟩
    · simp [hn]
    · simp [hk]
  · intro final
    rcases ModThree_cases input with ⟨n, hn⟩ | ⟨c, k, hk⟩
    · simp [hn]
    · simp [hk]

/-- Witness of C16: `ModThree("10a01")` returns -1 and the wrapped
`ErrInvalidSymbol` for `'a'` at index 2. -/
theorem C16_modthree_invalid_input_witness :
    (∃ pre c post, (TrimSpace "10a01").data = pre ++ c :: post ∧
      (∀ x ∈ pre, x = '0' ∨ x = '1') ∧ c ≠ '0' ∧ c ≠ '1' ∧
      ModThree "10a01" = (-1, some (Err.invalidBinaryInput
        (Err.ErrInvalidSymbol (c.toNat : Int) (pre.length : Int))))) ∧
    ModThree "10a01" = (-1, some (Err.invalidBinaryInput (Err.ErrInvalidSymbol 97 2))) :=
  ⟨(C16_modthree_invalid_input "10a01").1 ⟨'a', by decide, by decide, by decide⟩, by decide⟩
